import Mathlib

/-!
Shallow embedding of the core geometry logic of GMSH-Airfoil-2D
(src/gmshairfoil2d/geometry_def.py and src/gmshairfoil2d/gmshairfoil2d.py).

Conventions of the embedding:
* Coordinates are exact rationals; where the Python code calls math.log,
  math.sqrt or math.atan the embedding computes in the reals.
* Python exceptions are modelled with Except PyErr: an uncaught ValueError,
  ZeroDivisionError, IndexError or NameError, and sys.exit, each get a
  constructor.
* Python list indexing l[i] (negative indices wrap once, out-of-range raises
  IndexError) is modelled by pyGet; python int() truncates toward zero and is
  modelled by pyint / pyintQ.
* min()/max() with a key return the first extremal element; l.index(e) finds
  the first structurally equal element.  For the airfoil points both notions
  coincide with "first index attaining the extremal x", which is how leIdxOf
  and teIdxOf are defined.
-/

set_option maxRecDepth 8000

namespace GmshAirfoil2D

/-- Geometric point of the airfoil contour: the (x, y, z) coordinates used by
the Python Point objects (the mesh-size hint plays no role in the verified
logic and is omitted). -/
structure Pt where
  x : ℚ
  y : ℚ
  z : ℚ
deriving DecidableEq, Repr

/-- Fatal outcomes of the Python code: uncaught exceptions raised by the
runtime, plus sys.exit (the code's explicit fatal-abort path). -/
inductive PyErr where
  | valueError
  | zeroDivisionError
  | indexError
  | systemExit
  | nameError
deriving DecidableEq, Repr

deriving instance DecidableEq for Except

/-- Python list indexing l[i]: a negative index wraps once from the end,
any remaining out-of-range access raises IndexError. -/
def pyGet (l : List Pt) (i : ℤ) : Except PyErr Pt :=
  let j : ℤ := if i < 0 then i + l.length else i
  if j < 0 then .error .indexError
  else
    match l[j.toNat]? with
    | some p => .ok p
    | none => .error .indexError

/-- Python slice l[a:b] for 0 ≤ a ≤ b. -/
def pySlice (l : List Pt) (a b : ℕ) : List Pt := (l.take b).drop a

/-- Python list.insert(n, a) for an in-range position n. -/
def insertAt (n : ℕ) (a : Pt) (l : List Pt) : List Pt := l.take n ++ a :: l.drop n

/-- Minimum of a list (none on the empty list, where Python min raises
ValueError). -/
def fMin? {α : Type} [LinearOrder α] : List α → Option α
  | [] => none
  | a :: t =>
    some (match fMin? t with
          | none => a
          | some m => min a m)

/-- Maximum of a list (none on the empty list, where Python max raises
ValueError). -/
def fMax? {α : Type} [LinearOrder α] : List α → Option α
  | [] => none
  | a :: t =>
    some (match fMax? t with
          | none => a
          | some m => max a m)

/-- Index of the first point whose x coordinate equals v. -/
def firstIdxWithX (l : List Pt) (v : ℚ) : ℕ := l.findIdx fun p => decide (p.x = v)

/-- Index of the leading edge: min(points, key=attrgetter("x")) followed by
points.index(le), i.e. the first index attaining the minimal x
(geometry_def.py lines 623, 627). -/
def leIdxOf (l : List Pt) : ℕ := firstIdxWithX l ((fMin? (l.map Pt.x)).getD 0)

/-- Index of the trailing edge: max(points, key=attrgetter("x")) followed by
points.index(te), i.e. the first index attaining the maximal x
(geometry_def.py lines 624, 626). -/
def teIdxOf (l : List Pt) : ℕ := firstIdxWithX l ((fMax? (l.map Pt.x)).getD 0)

/-- Trailing-edge point itself (only evaluated on nonempty lists, where the
index is in range). -/
def teOf (l : List Pt) : Pt := l[teIdxOf l]?.getD ⟨0, 0, 0⟩

/-- Determinant b*c - a*d of the two trailing-edge extrapolation rays, where
(a, b) is the vector from p1 (the point before the upper trailing point) to
the upper trailing point and (c, d) the vector from p2 (the point after the
lower trailing point) to the lower trailing point (geometry_def.py line 670). -/
def rayDet (p1 up down p2 : Pt) : ℚ :=
  (up.y - p1.y) * (down.x - p2.x) - (up.x - p1.x) * (down.y - p2.y)

/-- Blunt-trailing-edge repair (the body of the `if vertical:` block of
AirfoilSpline.__init__, geometry_def.py lines 648-692): given the point p1
before the upper trailing point, the two trailing points up and down, the
point p2 after the lower trailing point and the trailing-edge x coordinate,
it returns some new point to insert, none in the "nothing" branch, or the
ZeroDivisionError raised when the fallback direction has zero x component. -/
def repairNew (p1 up down p2 : Pt) (tex : ℚ) : Except PyErr (Option Pt) :=
  let x := up.x
  let y := up.y
  let z := down.x
  let w := down.y
  let a := x - p1.x
  let b := y - p1.y
  let c := z - p2.x
  let d := w - p2.y
  let mu : ℚ :=
    if b * c - a * d ≠ 0 then (b * (x - z) + a * (w - y)) / (b * c - a * d)
    else 10000000
  if z + mu * c ≤ tex + 1 / 10 ∧ z + mu * c > tex then
    .ok (some ⟨z + mu * c, w + mu * d, 0⟩)
  else if z + mu * c > tex - 1 / 1000 ∧ z + mu * c ≤ tex then
    .ok none
  else
    let px := (x + z) / 2
    let py := (y + w) / 2
    let e := (a + c) / 2
    let f := (b + d) / 2
    if e = 0 then .error .zeroDivisionError
    else .ok (some ⟨tex + 1 / 20, py + (tex + 1 / 20 - px) / e * f, 0⟩)

/-- Result of AirfoilSpline.__init__: the (possibly repaired) point list and
the bookkeeping mirroring the instance attributes and the local variables
vertical, te_up_indx, te_down_indx of geometry_def.py lines 609-698; inserted
records the synthesized trailing point when one was added. -/
structure SplitSt where
  points : List Pt
  leIdx : ℕ
  teIdx : ℕ
  vertical : Bool
  teUpIdx : Option ℤ
  teDownIdx : Option ℤ
  inserted : Option Pt
deriving DecidableEq, Repr

/-- Repair step shared by the two bluntness branches: fetch the four points
used by the extrapolation (in the evaluation order of geometry_def.py lines
650-653), run the repair, and insert the new point at te_down_indx when one
was produced (lines 694-698). -/
def repairAndInsert (pts : List Pt) (leIdx teIdx : ℕ) (tex : ℚ) (teUp teDown : ℤ) :
    Except PyErr SplitSt :=
  match pyGet pts teUp with
  | .error e => .error e
  | .ok up =>
    match pyGet pts teDown with
    | .error e => .error e
    | .ok down =>
      match pyGet pts (teUp - 1) with
      | .error e => .error e
      | .ok p1 =>
        match pyGet pts (teDown + 1) with
        | .error e => .error e
        | .ok p2 =>
          match repairNew p1 up down p2 tex with
          | .error e => .error e
          | .ok none => .ok ⟨pts, leIdx, teIdx, true, some teUp, some teDown, none⟩
          | .ok (some newP) =>
            .ok ⟨insertAt teDown.toNat newP pts, leIdx, teDown.toNat, true,
                 some teUp, some teDown, some newP⟩

/-- AirfoilSpline.__init__ (geometry_def.py lines 609-698): locate the
leading and trailing edges, abort with sys.exit when the leading edge is not
at index 0, detect a blunt trailing edge by probing the neighbours of the
trailing index (the predecessor probe wraps via Python negative indexing, the
successor probe can raise IndexError), and repair a blunt edge. -/
def splitterInit (pts : List Pt) : Except PyErr SplitSt :=
  if pts = [] then .error .valueError
  else
    let leIdx := leIdxOf pts
    let teIdx := teIdxOf pts
    let te := pts[teIdx]?.getD ⟨0, 0, 0⟩
    if leIdx ≠ 0 then .error .systemExit
    else
      match pyGet pts ((teIdx : ℤ) - 1) with
      | .error e => .error e
      | .ok predP =>
        if predP.x > te.x - 1 / 10000 then
          repairAndInsert pts leIdx teIdx te.x ((teIdx : ℤ) - 1) (teIdx : ℤ)
        else
          match pyGet pts ((teIdx : ℤ) + 1) with
          | .error e => .error e
          | .ok succP =>
            if succP.x > te.x - 1 / 10000 then
              repairAndInsert pts leIdx teIdx te.x (teIdx : ℤ) ((teIdx : ℤ) + 1)
            else
              .ok ⟨pts, leIdx, teIdx, false, none, none, none⟩

/-- Upper spline point list of gen_skin: points[le_indx : te_indx + 1]
(geometry_def.py line 707). -/
def genSkinUpper (st : SplitSt) : List Pt := pySlice st.points st.leIdx (st.teIdx + 1)

/-- Lower spline point list of gen_skin: points[te_indx:] + points[:le_indx + 1]
(geometry_def.py lines 711-714). -/
def genSkinLower (st : SplitSt) : List Pt :=
  st.points.drop st.teIdx ++ pySlice st.points 0 (st.leIdx + 1)

/-- Index of the first element structurally equal to p (Python list.index). -/
def idxOfPt (l : List Pt) (p : Pt) : ℕ := l.findIdx fun q => decide (q = p)

/-- Rotation scan of the point-cloud normalizer (gmshairfoil2d.py lines
186-188): for every p with p.x equal to the minimal x the loop overwrites
debut with cloud_points.index(p); the value is none when no point matches
(unreachable for the true minimum, where Python would raise NameError). -/
def normDebut (cps : List Pt) (le : ℚ) : Option ℕ :=
  cps.foldl (fun acc p => if p.x = le then some (idxOfPt cps p) else acc) none

/-- Value held by the rotation scan when it is made to remember the point
rather than its index: the last point of the list attaining x = le. -/
def lastWithX (cps : List Pt) (le : ℚ) : Option Pt :=
  cps.foldl (fun acc p => if p.x = le then some p else acc) none

/-- Leading-edge rotation of the point-cloud normalizer (gmshairfoil2d.py
lines 185-189): compute the minimal x, scan for debut, and rotate the list so
position debut comes first. -/
def normalizeRotate (cps : List Pt) : Except PyErr (List Pt) :=
  match fMin? (cps.map Pt.x) with
  | none => .error .valueError
  | some le =>
    match normDebut cps le with
    | none => .error .nameError
    | some debut => .ok (cps.drop debut ++ cps.take debut)

/-- Squared distance from the farfield center (0.5, 0): the quantity
(p.x - 0.5)² + p.y² maximised in the circular out-of-bounds check
(geometry_def.py line 837). -/
def sqDistC (p : Pt) : ℚ := (p.x - 1 / 2) * (p.x - 1 / 2) + p.y * p.y

/-- Failure predicate of outofbounds (geometry_def.py lines 805-844), exactly
as the code computes it: for a box, the four extrema comparisons; for the
circular farfield, sqrt of the maximal squared distance plus the absolute
boundary-layer thickness compared with the radius.  The unreachable empty
airfoil is mapped to False. -/
def outofboundsFails (pts : List Pt) (box : Option (ℚ × ℚ)) (radius blthick : ℚ) : Prop :=
  match box with
  | some (length, width) =>
    match fMax? (pts.map Pt.x), fMin? (pts.map Pt.x),
          fMax? (pts.map Pt.y), fMin? (pts.map Pt.y) with
    | some maxx, some minx, some maxy, some miny =>
      |maxx - 1 / 2| + |blthick| > length / 2 ∨ |minx - 1 / 2| + |blthick| > length / 2 ∨
      |maxy| + |blthick| > width / 2 ∨ |miny| + |blthick| > width / 2
    | _, _, _, _ => False
  | none =>
    match fMax? (pts.map sqDistC) with
    | some m => Real.sqrt (m : ℝ) + |(blthick : ℝ)| > (radius : ℝ)
    | none => False

open Classical in
/-- Run of outofbounds: sys.exit on failure, otherwise the airfoil points are
returned untouched (the function only reads them). -/
noncomputable def outofboundsRun (pts : List Pt) (box : Option (ℚ × ℚ)) (radius blthick : ℚ) :
    Except PyErr (List Pt) :=
  if outofboundsFails pts box radius blthick then .error .systemExit else .ok pts

/-- Out-of-bounds rule in the words of the spec (section 4.3): rectangular
domain compares the four extrema; circular farfield compares the maximum over
all contour points of sqrt((x - 0.5)² + y²) plus the absolute offset with the
radius. -/
def specOutOfBounds (pts : List Pt) (box : Option (ℚ × ℚ)) (radius blthick : ℚ) : Prop :=
  match box with
  | some (length, width) =>
    match fMax? (pts.map Pt.x), fMin? (pts.map Pt.x),
          fMax? (pts.map Pt.y), fMin? (pts.map Pt.y) with
    | some maxx, some minx, some maxy, some miny =>
      |maxx - 1 / 2| + |blthick| > length / 2 ∨ |minx - 1 / 2| + |blthick| > length / 2 ∨
      |maxy| + |blthick| > width / 2 ∨ |miny| + |blthick| > width / 2
    | _, _, _, _ => False
  | none =>
    match fMax? (pts.map fun p => Real.sqrt ((sqDistC p : ℚ) : ℝ)) with
    | some m => m + |(blthick : ℝ)| > (radius : ℝ)
    | none => False

/-- Python int(): truncation toward zero, on a real argument. -/
noncomputable def pyint (r : ℝ) : ℤ := if r < 0 then -Int.floor (-r) else Int.floor r

/-- Python int(): truncation toward zero, on a rational argument. -/
def pyintQ (q : ℚ) : ℤ := if q < 0 then -Int.floor (-q) else Int.floor q

/-- Vertical node count of the C-type topology (geometry_def.py line 963):
nb_points_y = 3 + int(log(1 + dy/2/height*(ratio-1)) / log(ratio)). -/
noncomputable def nbPointsY (dy hgt r : ℚ) : ℤ :=
  3 + pyint (Real.log ((1 + dy / 2 / hgt * (r - 1) : ℚ) : ℝ) / Real.log ((r : ℚ) : ℝ))

/-- Wake node count (geometry_def.py line 968):
nb_points_wake = int(dx_trail / mesh_size) + 1. -/
def nbPointsWake (dxTrail meshSize : ℚ) : ℤ := pyintQ (dxTrail / meshSize) + 1

/-- Along-skin node count of the mid blocks (geometry_def.py line 975):
nb_airfoil = int((1 + dx_lead/4) / ext_mesh_size * 2). -/
def nbAirfoil (dxLead extMeshSize : ℚ) : ℤ := pyintQ ((1 + dxLead / 4) / extMeshSize * 2)

/-- Nose-block node count (geometry_def.py lines 979-993):
r = sqrt(dy²/4 + (0.5+dx_lead)²), theta = 2*atan(dy/(1+2*dx_lead)),
nb_airfoil_front = max(4, int((r/4*theta)/ext_mesh_size*1.4) + 1). -/
noncomputable def nbAirfoilFront (dy dxLead extMeshSize : ℚ) : ℤ :=
  let r : ℝ := Real.sqrt ((dy * dy / 4 + (1 / 2 + dxLead) * (1 / 2 + dxLead) : ℚ) : ℝ)
  let theta : ℝ := 2 * Real.arctan ((dy : ℝ) / ((1 + 2 * dxLead : ℚ) : ℝ))
  max 4 (pyint (r / 4 * theta / ((extMeshSize : ℚ) : ℝ) * ((7 : ℝ) / 5)) + 1)

/-- Vertical node-count computation together with the exceptions the Python
evaluation of line 963 can raise: height = 0 gives ZeroDivisionError inside
the log argument, a non-positive log argument or a non-positive ratio gives
math's ValueError (domain error), ratio = 1 gives ZeroDivisionError from the
division by log(ratio) = 0.  CType.__init__ performs no parameter validation
of its own: there is no sys.exit / configuration-error branch here. -/
noncomputable def ctypeNbPointsY (dy hgt r : ℚ) : Except PyErr ℤ :=
  if hgt = 0 then .error .zeroDivisionError
  else if 1 + dy / 2 / hgt * (r - 1) ≤ 0 then .error .valueError
  else if r ≤ 0 then .error .valueError
  else if r = 1 then .error .zeroDivisionError
  else .ok (nbPointsY dy hgt r)

/-- Finite geometric layer sum h + h*r + ... + h*r^(n-1) = h*(r^n - 1)/(r - 1):
the total height reached by n boundary layers of first height h and growth
ratio r (the quantity the spec's section 8 test compares with dy/2). -/
def geomLayerSum (hgt r : ℚ) (n : ℕ) : ℚ := hgt * (r ^ n - 1) / (r - 1)

/-- Identity of a transfinite curve of the C-type topology: the eleven
straight lines of CType.lines plus the merged nose spline, the nose circle
arc and the two rear halves of the airfoil splines. -/
inductive CurveId where
  | line : Fin 11 → CurveId
  | splineFront
  | circleArc
  | upperSplineBack
  | lowerSplineBack
deriving DecidableEq, Repr

/-- Node-spacing progression attached to a transfinite curve: gmsh
"Progression" with a coefficient (1 = uniform, the default) or "Bump". -/
inductive Prog where
  | progression : ℚ → Prog
  | bump : ℚ → Prog
deriving DecidableEq, Repr

/-- One setTransfiniteCurve call: the curve, its node count and its
progression. -/
structure TransfiniteAssign where
  curve : CurveId
  nbNodes : ℤ
  prog : Prog
deriving DecidableEq, Repr

/-- The fifteen setTransfiniteCurve calls of CType.__init__ (geometry_def.py
lines 998-1031), in program order, as a function of the four computed node
counts and the growth ratio. -/
def ctypeAssignments (nbY nbWake nbAir nbFront : ℤ) (ratio : ℚ) : List TransfiniteAssign :=
  [ ⟨.line 7, nbY, .progression (1 / ratio)⟩,
    ⟨.splineFront, nbFront, .progression 1⟩,
    ⟨.line 0, nbY, .progression ratio⟩,
    ⟨.circleArc, nbFront, .progression 1⟩,
    ⟨.line 1, nbAir, .progression 1⟩,
    ⟨.line 8, nbY, .progression ratio⟩,
    ⟨.upperSplineBack, nbAir, .bump (1 / 5)⟩,
    ⟨.line 2, nbWake, .progression (50 / 49)⟩,
    ⟨.line 3, nbY, .progression (1 / ratio)⟩,
    ⟨.line 10, nbWake, .progression (49 / 50)⟩,
    ⟨.line 9, nbY, .progression ratio⟩,
    ⟨.line 4, nbY, .progression ratio⟩,
    ⟨.line 5, nbWake, .progression (49 / 50)⟩,
    ⟨.lowerSplineBack, nbAir, .bump (1 / 5)⟩,
    ⟨.line 6, nbAir, .progression 1⟩ ]

/-- Side of a block loop: a curve taken forward (positive tag) or backward
(negative tag) in the addCurveLoop call. -/
structure OrientedCurve where
  forward : Bool
  curve : CurveId
deriving DecidableEq, Repr

/-- Curve loop of block A (geometry_def.py line 1037). -/
def blockA : List OrientedCurve :=
  [⟨true, .line 7⟩, ⟨true, .splineFront⟩, ⟨true, .line 0⟩, ⟨false, .circleArc⟩]

/-- Curve loop of block B (geometry_def.py line 1043). -/
def blockB : List OrientedCurve :=
  [⟨true, .line 0⟩, ⟨true, .line 1⟩, ⟨false, .line 8⟩, ⟨false, .upperSplineBack⟩]

/-- Curve loop of block C (geometry_def.py line 1049). -/
def blockC : List OrientedCurve :=
  [⟨true, .line 8⟩, ⟨true, .line 2⟩, ⟨true, .line 3⟩, ⟨true, .line 10⟩]

/-- Curve loop of block D (geometry_def.py line 1055). -/
def blockD : List OrientedCurve :=
  [⟨false, .line 9⟩, ⟨false, .line 10⟩, ⟨true, .line 4⟩, ⟨true, .line 5⟩]

/-- Curve loop of block E (geometry_def.py line 1061). -/
def blockE : List OrientedCurve :=
  [⟨true, .line 7⟩, ⟨false, .lowerSplineBack⟩, ⟨true, .line 9⟩, ⟨true, .line 6⟩]

/-- The five transfinite blocks of the C-type topology in order A-E. -/
def ctypeBlocks : List (List OrientedCurve) := [blockA, blockB, blockC, blockD, blockE]

/-- All transfinite assignments of the schedule naming a given curve. -/
def assignsFor (s : List TransfiniteAssign) (c : CurveId) : List TransfiniteAssign :=
  s.filter fun t => decide (t.curve = c)

/-- Node count a curve receives from the schedule (none when unassigned). -/
def countOf (s : List TransfiniteAssign) (c : CurveId) : Option ℤ :=
  ((assignsFor s c).head?).map TransfiniteAssign.nbNodes

/-- Whether a block's curve loop uses a given curve (in either orientation). -/
def blockUses (b : List OrientedCurve) (c : CurveId) : Bool :=
  b.any fun oc => decide (oc.curve = c)

/-- Complete transfinite schedule of CType.__init__ as a function of the six
sizing parameters dx_lead, dx_trail, dy, ext_mesh_size, first-layer height
and ratio. -/
noncomputable def ctypeScheduleFull (dxLead dxTrail dy extMeshSize hgt ratio : ℚ) :
    List TransfiniteAssign :=
  ctypeAssignments (nbPointsY dy hgt ratio) (nbPointsWake dxTrail extMeshSize)
    (nbAirfoil dxLead extMeshSize) (nbAirfoilFront dy dxLead extMeshSize) ratio

/-- Cross-block consistency of a transfinite schedule: each of the five
curves shared between adjacent blocks (L0 between A and B, L8 between B and
C, L10 between C and D, L9 between D and E, L7 between E and A) receives
exactly one assignment, its curve lies in both adjacent block loops, the
four shared vertical curves carry the vertical node count nbY and L10 the
wake count nbWake, and in every block the two opposite sides carry equal
node counts. -/
def ctypeSharedConsistency (s : List TransfiniteAssign) (nbY nbWake : ℤ) : Prop :=
  ((assignsFor s (.line 0)).length = 1 ∧ (assignsFor s (.line 7)).length = 1 ∧
   (assignsFor s (.line 8)).length = 1 ∧ (assignsFor s (.line 9)).length = 1 ∧
   (assignsFor s (.line 10)).length = 1) ∧
  (blockUses blockA (.line 0) = true ∧ blockUses blockB (.line 0) = true ∧
   blockUses blockB (.line 8) = true ∧ blockUses blockC (.line 8) = true ∧
   blockUses blockC (.line 10) = true ∧ blockUses blockD (.line 10) = true ∧
   blockUses blockD (.line 9) = true ∧ blockUses blockE (.line 9) = true ∧
   blockUses blockE (.line 7) = true ∧ blockUses blockA (.line 7) = true) ∧
  (countOf s (.line 0) = some nbY ∧ countOf s (.line 7) = some nbY ∧
   countOf s (.line 8) = some nbY ∧ countOf s (.line 9) = some nbY ∧
   countOf s (.line 10) = some nbWake) ∧
  (countOf s (.line 7) = countOf s (.line 0) ∧
   countOf s .splineFront = countOf s .circleArc ∧
   countOf s (.line 0) = countOf s (.line 8) ∧
   countOf s (.line 1) = countOf s .upperSplineBack ∧
   countOf s (.line 8) = countOf s (.line 3) ∧
   countOf s (.line 2) = countOf s (.line 10) ∧
   countOf s (.line 9) = countOf s (.line 4) ∧
   countOf s (.line 10) = countOf s (.line 5) ∧
   countOf s (.line 7) = countOf s (.line 9) ∧
   countOf s .lowerSplineBack = countOf s (.line 6))

/-!
Theorems.
-/

/-- Python int() of a nonnegative real is the floor. -/
theorem pyint_eq_floor (r : ℝ) (h : 0 ≤ r) : pyint r = Int.floor r := by
  simp [pyint, not_lt.mpr h]

/-- C1: in the five-block C-type topology each of the five curves shared
between adjacent blocks (nose/upper-mid L0, upper-mid/upper-wake L8,
upper-wake/lower-wake L10, lower-wake/lower-mid L9, lower-mid/nose L7)
receives exactly one transfinite assignment, both incident blocks' loops use
that curve (so both necessarily see the identical node count and the single
orientation-consistent progression attached to it), the shared vertical
curves all carry the vertical count and L10 the wake count, and within each
of the five blocks the two opposite sides carry equal node counts — for
every choice of the sizing parameters dx_lead, dx_trail, dy, ext_mesh_size,
first_layer_height and ratio (the schedule does not depend on the split
contour, so this holds for every valid split). -/
theorem c1_ctype_shared_edge_consistency
    (dxLead dxTrail dy extMeshSize hgt ratio : ℚ) :
    ctypeSharedConsistency (ctypeScheduleFull dxLead dxTrail dy extMeshSize hgt ratio)
      (nbPointsY dy hgt ratio) (nbPointsWake dxTrail extMeshSize) := by
  exact ⟨⟨rfl, rfl, rfl, rfl, rfl⟩,
         ⟨rfl, rfl, rfl, rfl, rfl, rfl, rfl, rfl, rfl, rfl⟩,
         ⟨rfl, rfl, rfl, rfl, rfl⟩,
         ⟨rfl, rfl, rfl, rfl, rfl, rfl, rfl, rfl, rfl, rfl⟩⟩

/-- Floor of the default-parameter log quotient: for dy = 10, first layer
height 3e-5 and ratio 1.2 the argument of the log is 100003/3, and
(6/5)^57 ≤ 100003/3 < (6/5)^58 pins the floor at 57. -/
theorem floor_log_quotient_default :
    Int.floor (Real.log ((100003 : ℝ) / 3) / Real.log ((6 : ℝ) / 5)) = 57 := by
  have hb : (0 : ℝ) < Real.log (6 / 5) := Real.log_pos (by norm_num)
  have h57 : ((6 : ℝ) / 5) ^ (57 : ℕ) ≤ (100003 : ℝ) / 3 := by norm_num
  have h58 : (100003 : ℝ) / 3 < ((6 : ℝ) / 5) ^ (58 : ℕ) := by norm_num
  rw [Int.floor_eq_iff]
  constructor
  · rw [le_div_iff₀ hb]
    have h1 : ((57 : ℤ) : ℝ) * Real.log (6 / 5) = Real.log (((6 : ℝ) / 5) ^ (57 : ℕ)) := by
      rw [Real.log_pow]; norm_num
    rw [h1]
    exact (Real.log_le_log_iff (by positivity) (by norm_num)).mpr h57
  · rw [div_lt_iff₀ hb]
    have h2 : (((57 : ℤ) : ℝ) + 1) * Real.log (6 / 5) = Real.log (((6 : ℝ) / 5) ^ (58 : ℕ)) := by
      rw [Real.log_pow]; norm_num
    rw [h2]
    exact (Real.log_lt_log_iff (by norm_num) (by positivity)).mpr h58

/-- Vertical node count at the spec's reference parameters dy = 10,
first_layer_height = 3e-5, ratio = 1.2: the code computes N = 60. -/
theorem nbPointsY_at_default : nbPointsY 10 (3 / 100000) (6 / 5) = 60 := by
  have harg : ((1 + (10 : ℚ) / 2 / (3 / 100000) * (6 / 5 - 1) : ℚ) : ℝ) = (100003 : ℝ) / 3 := by
    norm_num
  have hrat : (((6 : ℚ) / 5 : ℚ) : ℝ) = (6 : ℝ) / 5 := by norm_num
  have hb : (0 : ℝ) < Real.log (6 / 5) := Real.log_pos (by norm_num)
  have hnum : (0 : ℝ) ≤ Real.log ((100003 : ℝ) / 3) := Real.log_nonneg (by norm_num)
  unfold nbPointsY
  rw [harg, hrat, pyint_eq_floor _ (div_nonneg hnum (le_of_lt hb)), floor_log_quotient_default]
  norm_num

/-- Vertical node-count run at the reference parameters: the construction
succeeds with N = 60 (no exception is raised). -/
theorem ctypeNbPointsY_at_default : ctypeNbPointsY 10 (3 / 100000) (6 / 5) = .ok 60 := by
  unfold ctypeNbPointsY
  rw [if_neg (by norm_num), if_neg (by norm_num), if_neg (by norm_num), if_neg (by norm_num),
      nbPointsY_at_default]

/-- C3 counterexample: at dy = 10, first_layer_height = 3e-5, ratio = 1.2 the
computed count is N = 60, and contrary to the claim the geometric sum with
N - 1 = 59 layers ALSO reaches the half-height dy/2 = 5 (the formula's +3
margin makes N non-minimal). -/
theorem c3_counterexample :
    ctypeNbPointsY 10 (3 / 100000) (6 / 5) = .ok 60 ∧
    10 / 2 ≤ geomLayerSum (3 / 100000) (6 / 5) (60 - 1) := by
  refine ⟨ctypeNbPointsY_at_default, ?_⟩
  unfold geomLayerSum
  norm_num

/-- C3 as amended: at dy = 10, first_layer_height = 3e-5, ratio = 1.2 the
code computes N = 60 and the geometric progression with N layers does reach
the target half-height dy/2, but N is not minimal: 59 and even 58 layers also
reach dy/2, while 57 do not (the true minimal count is 58; the formula's +3
margin overshoots it by 2). -/
theorem c3_theorem :
    ctypeNbPointsY 10 (3 / 100000) (6 / 5) = .ok 60 ∧
    10 / 2 ≤ geomLayerSum (3 / 100000) (6 / 5) 60 ∧
    10 / 2 ≤ geomLayerSum (3 / 100000) (6 / 5) 59 ∧
    10 / 2 ≤ geomLayerSum (3 / 100000) (6 / 5) 58 ∧
    geomLayerSum (3 / 100000) (6 / 5) 57 < 10 / 2 := by
  refine ⟨ctypeNbPointsY_at_default, ?_, ?_, ?_, ?_⟩ <;> (unfold geomLayerSum; norm_num)

/-- Vertical node-count run at dy = 10, height = -20/3, ratio = 2: the log
argument is 1/4, the quotient log(1/4)/log(2) is exactly -2, and the code
returns N = 1 < 3 without any error. -/
theorem ctypeNbPointsY_low_case : ctypeNbPointsY 10 (-20 / 3) 2 = .ok 1 := by
  have harg : ((1 + (10 : ℚ) / 2 / (-20 / 3) * (2 - 1) : ℚ) : ℝ) = (1 : ℝ) / 4 := by
    norm_num
  have hrat : (((2 : ℚ) : ℚ) : ℝ) = (2 : ℝ) := by norm_num
  have hlog2 : Real.log 2 ≠ 0 := ne_of_gt (Real.log_pos (by norm_num))
  have hlog4 : Real.log ((1 : ℝ) / 4) = -(2 * Real.log 2) := by
    rw [show (1 : ℝ) / 4 = ((2 : ℝ) ^ (2 : ℕ))⁻¹ by norm_num, Real.log_inv, Real.log_pow]
    norm_num
  have hq : Real.log ((1 : ℝ) / 4) / Real.log 2 = -2 := by
    rw [hlog4, neg_div, mul_div_assoc, div_self hlog2]
    ring
  unfold ctypeNbPointsY
  rw [if_neg (by norm_num), if_neg (by norm_num), if_neg (by norm_num), if_neg (by norm_num)]
  unfold nbPointsY
  rw [harg, hrat, hq]
  norm_num [pyint]

/-- C4 counterexample: the parameter combination dy = 10,
first_layer_height = -20/3, ratio = 2 yields N = 1 < 3, yet the construction
does not terminate fatally with a configuration error — it returns N = 1
normally and passes it on to the kernel. -/
theorem c4_counterexample :
    ctypeNbPointsY 10 (-20 / 3) 2 = .ok 1 ∧ (1 : ℤ) < 3 :=
  ⟨ctypeNbPointsY_low_case, by norm_num⟩

/-- C4 as amended: CType.__init__ performs no parameter validation at all.
For every combination with nonzero height whose log argument is non-positive
the computation terminates with an uncaught math-domain ValueError (not a
descriptive configuration-error message, and only after the airfoil
curve-splitting kernel calls of lines 874-892 have already been issued), and
a combination yielding N < 3 (possible only with sign-violating parameters
such as a negative first-layer height) produces no error at all: the count is
handed to the kernel unchecked. -/
theorem c4_theorem :
    (∀ dy hgt r : ℚ, hgt ≠ 0 → 1 + dy / 2 / hgt * (r - 1) ≤ 0 →
      ctypeNbPointsY dy hgt r = .error .valueError) ∧
    (ctypeNbPointsY 10 (-20 / 3) 2 = .ok 1 ∧ (1 : ℤ) < 3) := by
  refine ⟨?_, ctypeNbPointsY_low_case, by norm_num⟩
  intro dy hgt r h0 harg
  unfold ctypeNbPointsY
  rw [if_neg h0, if_pos harg]

/-- Witness for c4_theorem at dy = 10, height = -1, ratio = 2 (log argument
1 - 5 = -4 ≤ 0). -/
theorem c4_witness :
    (-1 : ℚ) ≠ 0 ∧ (1 + (10 : ℚ) / 2 / (-1) * (2 - 1) ≤ 0) ∧
    ctypeNbPointsY 10 (-1) 2 = .error .valueError :=
  ⟨by norm_num, by norm_num, c4_theorem.1 10 (-1) 2 (by norm_num) (by norm_num)⟩

/-- Maximum commutes with pointwise square roots: the square root of the
maximal squared distance is the maximum of the square roots. -/
theorem fMax?_map_sqrt (l : List ℚ) :
    fMax? (l.map fun q : ℚ => Real.sqrt (q : ℝ)) =
      (fMax? l).map fun m : ℚ => Real.sqrt (m : ℝ) := by
  induction l with
  | nil => rfl
  | cons a t ih =>
    cases ht : fMax? t with
    | none =>
      simp [fMax?, ih, ht]
    | some m =>
      simp [fMax?, ih, ht]
      exact (Monotone.map_max fun x y hxy => Real.sqrt_le_sqrt hxy).symm

/-- Failure predicate of the code coincides with the spec's rule. -/
theorem outofboundsFails_iff_spec (pts : List Pt) (box : Option (ℚ × ℚ))
    (radius blthick : ℚ) :
    outofboundsFails pts box radius blthick ↔ specOutOfBounds pts box radius blthick := by
  cases box with
  | some lw =>
    obtain ⟨length, width⟩ := lw
    exact Iff.rfl
  | none =>
    unfold outofboundsFails specOutOfBounds
    have hmm : (pts.map fun p => Real.sqrt ((sqDistC p : ℚ) : ℝ)) =
        (pts.map sqDistC).map fun q : ℚ => Real.sqrt (q : ℝ) := by
      rw [List.map_map]; rfl
    rw [hmm, fMax?_map_sqrt]
    cases fMax? (pts.map sqDistC) <;> simp

/-- C9: the out-of-bounds validator exits fatally if and only if the spec's
rule fires — for a rectangular domain when one of the four extrema
comparisons |max_x - 0.5| + |offset| > length/2, |min_x - 0.5| + |offset| >
length/2, |max_y| + |offset| > width/2, |min_y| + |offset| > width/2 holds,
and for a circular farfield when the maximum over all contour points of
sqrt((x - 0.5)² + y²) plus |offset| exceeds the radius — and when it does not
fire the airfoil state passes through unchanged. -/
theorem c9_outofbounds_iff (pts : List Pt) (box : Option (ℚ × ℚ)) (radius blthick : ℚ) :
    (outofboundsRun pts box radius blthick = .error .systemExit ↔
      specOutOfBounds pts box radius blthick) ∧
    (¬ specOutOfBounds pts box radius blthick →
      outofboundsRun pts box radius blthick = .ok pts) := by
  have hiff := outofboundsFails_iff_spec pts box radius blthick
  unfold outofboundsRun
  by_cases h : outofboundsFails pts box radius blthick
  · rw [if_pos h]
    exact ⟨⟨fun _ => hiff.mp h, fun _ => rfl⟩, fun hns => absurd (hiff.mp h) hns⟩
  · rw [if_neg h]
    exact ⟨⟨fun hcontra => Except.noConfusion hcontra, fun hs => absurd (hiff.mpr hs) h⟩,
           fun _ => rfl⟩

/-- Nonempty lists have a maximum. -/
theorem fMax?_isSome {A : Type} [LinearOrder A] (l : List A) (h : l ≠ []) :
    ∃ m, fMax? l = some m := by
  cases l with
  | nil => exact absurd rfl h
  | cons a t => exact ⟨_, rfl⟩

/-- Nonempty lists have a minimum. -/
theorem fMin?_isSome {A : Type} [LinearOrder A] (l : List A) (h : l ≠ []) :
    ∃ m, fMin? l = some m := by
  cases l with
  | nil => exact absurd rfl h
  | cons a t => exact ⟨_, rfl⟩

/-- The maximum is attained by a list element. -/
theorem fMax?_mem {A : Type} [LinearOrder A] {l : List A} {m : A}
    (h : fMax? l = some m) : m ∈ l := by
  induction l generalizing m with
  | nil => simp [fMax?] at h
  | cons a t ih =>
    rw [fMax?] at h
    cases ht : fMax? t with
    | none =>
      rw [ht] at h
      simp at h
      subst h
      exact List.mem_cons_self a t
    | some mt =>
      rw [ht] at h
      simp at h
      rcases max_choice a mt with hc | hc <;> rw [hc] at h <;> subst h
      · exact List.mem_cons_self a t
      · exact List.mem_cons_of_mem a (ih ht)

/-- The minimum is attained by a list element. -/
theorem fMin?_mem {A : Type} [LinearOrder A] {l : List A} {m : A}
    (h : fMin? l = some m) : m ∈ l := by
  induction l generalizing m with
  | nil => simp [fMin?] at h
  | cons a t ih =>
    rw [fMin?] at h
    cases ht : fMin? t with
    | none =>
      rw [ht] at h
      simp at h
      subst h
      exact List.mem_cons_self a t
    | some mt =>
      rw [ht] at h
      simp at h
      rcases min_choice a mt with hc | hc <;> rw [hc] at h <;> subst h
      · exact List.mem_cons_self a t
      · exact List.mem_cons_of_mem a (ih ht)

/-- Every element is below the maximum. -/
theorem le_fMax? {A : Type} [LinearOrder A] {l : List A} {m : A}
    (h : fMax? l = some m) : ∀ q ∈ l, q ≤ m := by
  induction l generalizing m with
  | nil => intro q hq; simp at hq
  | cons a t ih =>
    intro q hq
    rw [fMax?] at h
    cases ht : fMax? t with
    | none =>
      cases t with
      | nil =>
        rw [ht] at h
        simp at h hq
        rw [hq, h]
      | cons b t2 => rw [fMax?] at ht; simp at ht
    | some mt =>
      rw [ht] at h
      simp at h
      rcases List.mem_cons.mp hq with hq | hq
      · rw [hq, ← h]; exact le_max_left a mt
      · exact le_trans (ih ht q hq) (h ▸ le_max_right a mt)

/-- Every element is above the minimum. -/
theorem fMin?_le {A : Type} [LinearOrder A] {l : List A} {m : A}
    (h : fMin? l = some m) : ∀ q ∈ l, m ≤ q := by
  induction l generalizing m with
  | nil => intro q hq; simp at hq
  | cons a t ih =>
    intro q hq
    rw [fMin?] at h
    cases ht : fMin? t with
    | none =>
      cases t with
      | nil =>
        rw [ht] at h
        simp at h hq
        rw [hq, h]
      | cons b t2 => rw [fMin?] at ht; simp at ht
    | some mt =>
      rw [ht] at h
      simp at h
      rcases List.mem_cons.mp hq with hq | hq
      · rw [hq, ← h]; exact min_le_left a mt
      · exact le_trans (h ▸ min_le_right a mt) (ih ht q hq)

/-- Extensional characterization of the maximum. -/
theorem fMax?_eq_some_iff {A : Type} [LinearOrder A] {l : List A} {m : A} :
    fMax? l = some m ↔ m ∈ l ∧ ∀ q ∈ l, q ≤ m := by
  constructor
  · exact fun h => ⟨fMax?_mem h, le_fMax? h⟩
  · rintro ⟨hmem, hub⟩
    obtain ⟨m2, hm2⟩ := fMax?_isSome l (List.ne_nil_of_mem hmem)
    have h1 : m2 ≤ m := hub m2 (fMax?_mem hm2)
    have h2 : m ≤ m2 := le_fMax? hm2 m hmem
    rw [hm2, le_antisymm h2 h1]

/-- Extensional characterization of the minimum. -/
theorem fMin?_eq_some_iff {A : Type} [LinearOrder A] {l : List A} {m : A} :
    fMin? l = some m ↔ m ∈ l ∧ ∀ q ∈ l, m ≤ q := by
  constructor
  · exact fun h => ⟨fMin?_mem h, fMin?_le h⟩
  · rintro ⟨hmem, hlb⟩
    obtain ⟨m2, hm2⟩ := fMin?_isSome l (List.ne_nil_of_mem hmem)
    have h1 : m ≤ m2 := hlb m2 (fMin?_mem hm2)
    have h2 : m2 ≤ m := fMin?_le hm2 m hmem
    rw [hm2, le_antisymm h2 h1]

/-- Moving an element from the middle to the front preserves the maximum. -/
theorem fMax?_middle {A : Type} [LinearOrder A] (l1 l2 : List A) (q : A) :
    fMax? (l1 ++ q :: l2) = fMax? (q :: (l1 ++ l2)) := by
  cases hm : fMax? (q :: (l1 ++ l2)) with
  | none => rw [fMax?] at hm; simp at hm
  | some m =>
    rw [fMax?_eq_some_iff] at hm ⊢
    obtain ⟨hmem, hub⟩ := hm
    constructor
    · simp only [List.mem_append, List.mem_cons] at hmem ⊢
      tauto
    · intro r hr
      apply hub
      simp only [List.mem_append, List.mem_cons] at hr ⊢
      tauto

/-- Moving an element from the middle to the front preserves the minimum. -/
theorem fMin?_middle {A : Type} [LinearOrder A] (l1 l2 : List A) (q : A) :
    fMin? (l1 ++ q :: l2) = fMin? (q :: (l1 ++ l2)) := by
  cases hm : fMin? (q :: (l1 ++ l2)) with
  | none => rw [fMin?] at hm; simp at hm
  | some m =>
    rw [fMin?_eq_some_iff] at hm ⊢
    obtain ⟨hmem, hlb⟩ := hm
    constructor
    · simp only [List.mem_append, List.mem_cons] at hmem ⊢
      tauto
    · intro r hr
      apply hlb
      simp only [List.mem_append, List.mem_cons] at hr ⊢
      tauto

/-- The trailing-edge index of a nonempty list is in range. -/
theorem teIdxOf_lt_length {l : List Pt} (h : l ≠ []) : teIdxOf l < l.length := by
  obtain ⟨m, hm⟩ := fMax?_isSome (l.map Pt.x) (by simpa using h)
  obtain ⟨p, hp, hpx⟩ := List.mem_map.mp (fMax?_mem hm)
  unfold teIdxOf firstIdxWithX
  apply List.findIdx_lt_length_of_exists
  exact ⟨p, hp, by simp [hm, hpx]⟩

/-- The point at the trailing-edge index attains the maximal x. -/
theorem teIdxOf_x {l : List Pt} (hlen : teIdxOf l < l.length) :
    (l.get ⟨teIdxOf l, hlen⟩).x = (fMax? (l.map Pt.x)).getD 0 := by
  have hw : List.findIdx (fun p => decide (p.x = (fMax? (l.map Pt.x)).getD 0)) l < l.length := hlen
  have := List.findIdx_getElem (w := hw)
  simpa [teIdxOf, firstIdxWithX] using this

/-- A successful positive-index pyGet gives an in-range lookup. -/
theorem pyGet_ok_of_nonneg {l : List Pt} {i : ℤ} {p : Pt} (hi : 0 ≤ i)
    (h : pyGet l i = .ok p) : i.toNat < l.length ∧ l[i.toNat]? = some p := by
  unfold pyGet at h
  rw [if_neg (not_lt.mpr hi), if_neg (not_lt.mpr hi)] at h
  split at h
  · rename_i q hg
    simp only [Except.ok.injEq] at h
    subst h
    obtain ⟨hlt, -⟩ := List.getElem?_eq_some_iff.mp hg
    exact ⟨hlt, hg⟩
  · exact absurd h (by simp)

/-- A successful pyGet returns a list element. -/
theorem pyGet_ok_mem {l : List Pt} {i : ℤ} {p : Pt} (h : pyGet l i = .ok p) : p ∈ l := by
  unfold pyGet at h
  by_cases hi : i < 0
  · rw [if_pos hi] at h
    simp only at h
    split at h
    · exact absurd h (by simp)
    · split at h
      · rename_i q hg
        simp only [Except.ok.injEq] at h
        subst h
        exact List.getElem?_mem hg
      · exact absurd h (by simp)
  · rw [if_neg hi] at h
    simp only at h
    split at h
    · exact absurd h (by simp)
    · split at h
      · rename_i q hg
        simp only [Except.ok.injEq] at h
        subst h
        exact List.getElem?_mem hg
      · exact absurd h (by simp)

/-- Length of an in-range insertion. -/
theorem insertAt_length {n : ℕ} {a : Pt} {l : List Pt} (h : n ≤ l.length) :
    (insertAt n a l).length = l.length + 1 := by
  simp [insertAt]
  omega

/-- Insertion keeps the elements before the insertion point. -/
theorem insertAt_getElem?_lt {n i : ℕ} {a : Pt} {l : List Pt} (hn : n ≤ l.length)
    (hi : i < n) : (insertAt n a l)[i]? = l[i]? := by
  unfold insertAt
  rw [List.getElem?_append_left (by simp [List.length_take]; omega),
      List.getElem?_take_of_lt hi]

/-- Insertion places the new element at the insertion point. -/
theorem insertAt_getElem?_self {n : ℕ} {a : Pt} {l : List Pt} (hn : n ≤ l.length) :
    (insertAt n a l)[n]? = some a := by
  unfold insertAt
  have hlen : (l.take n).length = n := by rw [List.length_take]; exact Nat.min_eq_left hn
  rw [List.getElem?_append_right (le_of_eq hlen), hlen]
  simp

/-- Insertion shifts the elements from the insertion point up by one. -/
theorem insertAt_getElem?_succ {n i : ℕ} {a : Pt} {l : List Pt} (hn : n ≤ l.length)
    (hi : n ≤ i) : (insertAt n a l)[i + 1]? = l[i]? := by
  unfold insertAt
  have hlen : (l.take n).length = n := by rw [List.length_take]; exact Nat.min_eq_left hn
  rw [List.getElem?_append_right (by rw [hlen]; omega), hlen,
      show i + 1 - n = (i - n) + 1 by omega]
  simp only [List.getElem?_cons_succ]
  rw [List.getElem?_drop]
  congr 1
  omega

/-- findIdx on an append whose first part contains no match. -/
theorem findIdx_append_of_not (p : Pt → Bool) (l1 l2 : List Pt)
    (h : ∀ a ∈ l1, p a = false) :
    List.findIdx p (l1 ++ l2) = l1.length + List.findIdx p l2 := by
  induction l1 with
  | nil => simp
  | cons b t ih =>
    rw [List.cons_append, List.findIdx_cons, h b (by simp), cond_false,
        ih fun a ha => h a (by simp [ha])]
    simp only [List.length_cons]
    omega

/-- Every successful run of the splitter starts at the leading edge, returns a
nonempty point list, and its trailing index is in range. -/
theorem splitterInit_ok_wf {pts : List Pt} {st : SplitSt}
    (h : splitterInit pts = .ok st) :
    pts ≠ [] ∧ st.leIdx = 0 ∧ st.points ≠ [] ∧ st.teIdx < st.points.length := by
  by_cases hemp : pts = []
  · rw [splitterInit, if_pos hemp] at h
    exact absurd h (by simp)
  rw [splitterInit, if_neg hemp] at h
  simp only at h
  by_cases hle : leIdxOf pts ≠ 0
  · rw [if_pos hle] at h
    exact absurd h (by simp)
  rw [if_neg hle] at h
  push_neg at hle
  have htlt : teIdxOf pts < pts.length := teIdxOf_lt_length hemp
  have hwfA : ∀ teUp teDown : ℤ, teDown.toNat ≤ pts.length →
      ∀ st2 : SplitSt, repairAndInsert pts (leIdxOf pts) (teIdxOf pts)
        (pts[teIdxOf pts]?.getD ⟨0, 0, 0⟩).x teUp teDown = .ok st2 →
      st2.leIdx = 0 ∧ st2.points ≠ [] ∧ st2.teIdx < st2.points.length := by
    intro teUp teDown hdlen st2 hra
    unfold repairAndInsert at hra
    split at hra
    · exact absurd hra (by simp)
    split at hra
    · exact absurd hra (by simp)
    split at hra
    · exact absurd hra (by simp)
    split at hra
    · exact absurd hra (by simp)
    split at hra
    · exact absurd hra (by simp)
    · simp only [Except.ok.injEq] at hra
      subst hra
      exact ⟨hle, hemp, htlt⟩
    · rename_i newP heqNew
      simp only [Except.ok.injEq] at hra
      subst hra
      refine ⟨hle, by simp [insertAt], ?_⟩
      show teDown.toNat < (insertAt teDown.toNat newP pts).length
      rw [insertAt_length hdlen]
      omega
  split at h
  · exact absurd h (by simp)
  · rename_i predP hpred
    split at h
    · exact ⟨hemp, hwfA _ _ (by omega) st h⟩
    · split at h
      · exact absurd h (by simp)
      · rename_i succP hsucc
        split at h
        · have hb := pyGet_ok_of_nonneg (by omega) hsucc
          exact ⟨hemp, hwfA _ _ (by omega) st h⟩
        · simp only [Except.ok.injEq] at h
          subst h
          exact ⟨hemp, hle, hemp, htlt⟩

/-- Numeral evaluations of Int.toNat, used when running the embedding on
concrete inputs. -/
theorem intToNat_numerals :
    Int.toNat 0 = 0 ∧ Int.toNat 1 = 1 ∧ Int.toNat 2 = 2 ∧ Int.toNat 3 = 3 ∧
    Int.toNat 4 = 4 ∧ Int.toNat 5 = 5 ∧ Int.toNat 6 = 6 ∧ Int.toNat 7 = 7 ∧
    Int.toNat 8 = 8 ∧ Int.toNat 9 = 9 :=
  ⟨rfl, rfl, rfl, rfl, rfl, rfl, rfl, rfl, rfl, rfl⟩

/-- C2: for every contour accepted by the splitter (after any repair), the
split of gen_skin satisfies: the upper curve starts where the lower curve
ends (the leading edge), the upper curve ends where the lower curve starts
(the trailing edge), and concatenating the upper points with the lower points
after dropping the shared trailing point yields exactly the contour followed
by the closing copy of the leading-edge point — so dropping that closing
copy as well visits every point of the (possibly repaired) contour exactly
once in contour order. -/
theorem c2_split_traversal (pts : List Pt) (st : SplitSt)
    (h : splitterInit pts = .ok st) :
    (genSkinUpper st).head? = (genSkinLower st).getLast? ∧
    (genSkinUpper st).getLast? = (genSkinLower st).head? ∧
    genSkinUpper st ++ (genSkinLower st).tail = st.points ++ st.points.take 1 ∧
    (genSkinUpper st ++ (genSkinLower st).tail).dropLast = st.points := by
  obtain ⟨-, hle, hne, hk⟩ := splitterInit_ok_wf h
  obtain ⟨q, rest, hqr⟩ : ∃ q rest, st.points = q :: rest := by
    cases hcl : st.points with
    | nil => exact absurd hcl hne
    | cons q rest => exact ⟨q, rest, rfl⟩
  have hup : genSkinUpper st = st.points.take (st.teIdx + 1) := by
    simp [genSkinUpper, pySlice, hle]
  have hlow : genSkinLower st = st.points.drop st.teIdx ++ st.points.take 1 := by
    simp [genSkinLower, pySlice, hle]
  have htake1 : st.points.take 1 = [q] := by rw [hqr]; rfl
  have hdropk : st.points.drop st.teIdx =
      st.points[st.teIdx] :: st.points.drop (st.teIdx + 1) :=
    List.drop_eq_getElem_cons hk
  have hc : genSkinUpper st ++ (genSkinLower st).tail =
      st.points ++ st.points.take 1 := by
    rw [hup, hlow, hdropk, List.cons_append, List.tail_cons, ← List.append_assoc,
        List.take_append_drop]
  refine ⟨?_, ?_, hc, ?_⟩
  · rw [hup, hlow, htake1, List.getLast?_concat, hqr]
    rfl
  · have hTL : (List.take (st.teIdx + 1) st.points).getLast? = some st.points[st.teIdx] := by
      rw [List.take_succ, List.getElem?_eq_getElem hk]
      simp only [Option.toList_some, List.getLast?_concat]
    have hRH : (st.points.drop st.teIdx ++ st.points.take 1).head? =
        some st.points[st.teIdx] := by
      rw [hdropk]
      rfl
    rw [hup, hlow, hTL, hRH]
  · rw [hc, htake1, List.dropLast_concat]

/-- Witness for c2_split_traversal on a concrete sharp-trailing-edge contour
(no repair branch taken). -/
theorem c2_witness :
    splitterInit [⟨0, 0, 0⟩, ⟨1, 1, 0⟩, ⟨1 / 2, -1, 0⟩] =
      .ok ⟨[⟨0, 0, 0⟩, ⟨1, 1, 0⟩, ⟨1 / 2, -1, 0⟩], 0, 1, false, none, none, none⟩ ∧
    ((genSkinUpper ⟨[⟨0, 0, 0⟩, ⟨1, 1, 0⟩, ⟨1 / 2, -1, 0⟩], 0, 1, false, none, none, none⟩).head? =
      (genSkinLower ⟨[⟨0, 0, 0⟩, ⟨1, 1, 0⟩, ⟨1 / 2, -1, 0⟩], 0, 1, false, none, none, none⟩).getLast? ∧
     (genSkinUpper ⟨[⟨0, 0, 0⟩, ⟨1, 1, 0⟩, ⟨1 / 2, -1, 0⟩], 0, 1, false, none, none, none⟩).getLast? =
      (genSkinLower ⟨[⟨0, 0, 0⟩, ⟨1, 1, 0⟩, ⟨1 / 2, -1, 0⟩], 0, 1, false, none, none, none⟩).head? ∧
     genSkinUpper ⟨[⟨0, 0, 0⟩, ⟨1, 1, 0⟩, ⟨1 / 2, -1, 0⟩], 0, 1, false, none, none, none⟩ ++
       (genSkinLower ⟨[⟨0, 0, 0⟩, ⟨1, 1, 0⟩, ⟨1 / 2, -1, 0⟩], 0, 1, false, none, none, none⟩).tail =
      [⟨0, 0, 0⟩, ⟨1, 1, 0⟩, ⟨1 / 2, -1, 0⟩] ++ List.take 1 [⟨0, 0, 0⟩, ⟨1, 1, 0⟩, ⟨1 / 2, -1, 0⟩] ∧
     (genSkinUpper ⟨[⟨0, 0, 0⟩, ⟨1, 1, 0⟩, ⟨1 / 2, -1, 0⟩], 0, 1, false, none, none, none⟩ ++
       (genSkinLower ⟨[⟨0, 0, 0⟩, ⟨1, 1, 0⟩, ⟨1 / 2, -1, 0⟩], 0, 1, false, none, none, none⟩).tail).dropLast =
      [⟨0, 0, 0⟩, ⟨1, 1, 0⟩, ⟨1 / 2, -1, 0⟩]) :=
  have hrun : splitterInit [⟨0, 0, 0⟩, ⟨1, 1, 0⟩, ⟨1 / 2, -1, 0⟩] =
      .ok ⟨[⟨0, 0, 0⟩, ⟨1, 1, 0⟩, ⟨1 / 2, -1, 0⟩], 0, 1, false, none, none, none⟩ := by
    norm_num [splitterInit, repairAndInsert, repairNew, pyGet, insertAt, teIdxOf, leIdxOf,
      firstIdxWithX, fMin?, fMax?, List.findIdx_cons, intToNat_numerals,
      List.getElem?_cons_zero, List.getElem?_cons_succ, List.cons_ne_nil]
  ⟨hrun,
   c2_split_traversal [⟨0, 0, 0⟩, ⟨1, 1, 0⟩, ⟨1 / 2, -1, 0⟩]
     ⟨[⟨0, 0, 0⟩, ⟨1, 1, 0⟩, ⟨1 / 2, -1, 0⟩], 0, 1, false, none, none, none⟩ hrun⟩

/-- C10: the blunt-trailing-edge detection probes the successor of the
trailing index without cyclic wraparound.  For every point list whose
maximum-x point sits at the last index and whose predecessor is not within
the 1e-4 bluntness tolerance, the successor probe indexes one past the end
of the list and the splitter fails with an IndexError instead of treating
the contour as cyclic (the predecessor probe, by contrast, wraps silently
via Python negative indexing). -/
theorem c10_successor_probe_index_error (pts : List Pt) (q : Pt)
    (hle : leIdxOf pts = 0)
    (hte : teIdxOf pts = pts.length - 1)
    (hlen : 2 ≤ pts.length)
    (hq : pts[pts.length - 2]? = some q)
    (htol : q.x + 1 / 10000 ≤ (pts[teIdxOf pts]?.getD ⟨0, 0, 0⟩).x) :
    splitterInit pts = .error .indexError := by
  have hne : pts ≠ [] := by
    intro hX
    rw [hX] at hlen
    simp at hlen
  have hpred : pyGet pts ((teIdxOf pts : ℤ) - 1) = .ok q := by
    unfold pyGet
    rw [hte]
    have h0 : ¬((pts.length - 1 : ℕ) : ℤ) - 1 < 0 := by omega
    rw [if_neg h0, if_neg h0]
    have hidx : (((pts.length - 1 : ℕ) : ℤ) - 1).toNat = pts.length - 2 := by omega
    rw [hidx, hq]
  have hsucc : pyGet pts ((teIdxOf pts : ℤ) + 1) = .error .indexError := by
    unfold pyGet
    rw [hte]
    have h0 : ¬((pts.length - 1 : ℕ) : ℤ) + 1 < 0 := by omega
    rw [if_neg h0, if_neg h0]
    have hidx : (((pts.length - 1 : ℕ) : ℤ) + 1).toNat = pts.length := by omega
    rw [hidx, List.getElem?_eq_none (le_refl pts.length)]
  have hcond : ¬(q.x > (pts[teIdxOf pts]?.getD ⟨0, 0, 0⟩).x - 1 / 10000) := by
    push_neg
    linarith
  rw [splitterInit, if_neg hne]
  simp [hle, hpred, hsucc, hcond]
  intro hlt
  rw [show ((10000 : ℚ))⁻¹ = 1 / 10000 by norm_num] at hlt
  exact absurd hlt hcond

/-- Witness for c10_successor_probe_index_error on a three-point contour
whose maximal-x point is last. -/
theorem c10_witness :
    leIdxOf [⟨0, 0, 0⟩, ⟨1 / 2, 3 / 10, 0⟩, ⟨1, 0, 0⟩] = 0 ∧
    teIdxOf [⟨0, 0, 0⟩, ⟨1 / 2, 3 / 10, 0⟩, ⟨1, 0, 0⟩] =
      ([⟨0, 0, 0⟩, ⟨1 / 2, 3 / 10, 0⟩, ⟨1, 0, 0⟩] : List Pt).length - 1 ∧
    splitterInit [⟨0, 0, 0⟩, ⟨1 / 2, 3 / 10, 0⟩, ⟨1, 0, 0⟩] = .error .indexError := by
  have h1 : leIdxOf [⟨0, 0, 0⟩, ⟨1 / 2, 3 / 10, 0⟩, ⟨1, 0, 0⟩] = 0 := by
    norm_num [leIdxOf, firstIdxWithX, fMin?, List.findIdx_cons]
  have h2 : teIdxOf [⟨0, 0, 0⟩, ⟨1 / 2, 3 / 10, 0⟩, ⟨1, 0, 0⟩] = 2 := by
    norm_num [teIdxOf, firstIdxWithX, fMax?, List.findIdx_cons]
  refine ⟨h1, by rw [h2]; rfl, ?_⟩
  refine c10_successor_probe_index_error _ ⟨1 / 2, 3 / 10, 0⟩ h1 (by rw [h2]; rfl)
    (by norm_num) (by norm_num) ?_
  rw [h2]
  norm_num

/-- Inversion of a successful repair step: the four extrapolation points were
fetched successfully and the result is either the no-repair state or the
state with the synthesized point inserted at te_down_indx. -/
theorem repairAndInsert_ok_inv {pts : List Pt} {leIdx teIdx : ℕ} {tex : ℚ}
    {teUp teDown : ℤ} {st : SplitSt}
    (h : repairAndInsert pts leIdx teIdx tex teUp teDown = .ok st) :
    ∃ up down p1 p2,
      pyGet pts teUp = .ok up ∧ pyGet pts teDown = .ok down ∧
      pyGet pts (teUp - 1) = .ok p1 ∧ pyGet pts (teDown + 1) = .ok p2 ∧
      ((repairNew p1 up down p2 tex = .ok none ∧
        st = ⟨pts, leIdx, teIdx, true, some teUp, some teDown, none⟩) ∨
       (∃ newP, repairNew p1 up down p2 tex = .ok (some newP) ∧
        st = ⟨insertAt teDown.toNat newP pts, leIdx, teDown.toNat, true,
              some teUp, some teDown, some newP⟩)) := by
  unfold repairAndInsert at h
  split at h
  · exact absurd h (by simp)
  rename_i up hup
  split at h
  · exact absurd h (by simp)
  rename_i down hdown
  split at h
  · exact absurd h (by simp)
  rename_i p1 hp1
  split at h
  · exact absurd h (by simp)
  rename_i p2 hp2
  split at h
  · exact absurd h (by simp)
  · rename_i hrep
    simp only [Except.ok.injEq] at h
    exact ⟨up, down, p1, p2, hup, hdown, hp1, hp2, Or.inl ⟨hrep, h.symm⟩⟩
  · rename_i newP hrep
    simp only [Except.ok.injEq] at h
    exact ⟨up, down, p1, p2, hup, hdown, hp1, hp2, Or.inr ⟨newP, hrep, h.symm⟩⟩

/-- Inversion of a successful splitter run: the leading edge is at index 0
and either no bluntness was detected (state unchanged, vertical false) or
the repair step ran with te_up_indx and te_down_indx the two consecutive
indices around the trailing index. -/
theorem splitterInit_ok_cases {pts : List Pt} {st : SplitSt}
    (h : splitterInit pts = .ok st) :
    pts ≠ [] ∧ leIdxOf pts = 0 ∧
    (st = ⟨pts, leIdxOf pts, teIdxOf pts, false, none, none, none⟩ ∨
     ∃ teUp teDown : ℤ,
       ((teUp = (teIdxOf pts : ℤ) - 1 ∧ teDown = (teIdxOf pts : ℤ)) ∨
        (teUp = (teIdxOf pts : ℤ) ∧ teDown = (teIdxOf pts : ℤ) + 1)) ∧
       repairAndInsert pts (leIdxOf pts) (teIdxOf pts)
         (pts[teIdxOf pts]?.getD ⟨0, 0, 0⟩).x teUp teDown = .ok st) := by
  by_cases hemp : pts = []
  · rw [splitterInit, if_pos hemp] at h
    exact absurd h (by simp)
  rw [splitterInit, if_neg hemp] at h
  simp only at h
  by_cases hle : leIdxOf pts ≠ 0
  · rw [if_pos hle] at h
    exact absurd h (by simp)
  rw [if_neg hle] at h
  push_neg at hle
  refine ⟨hemp, hle, ?_⟩
  split at h
  · exact absurd h (by simp)
  · rename_i predP hpred
    split at h
    · exact Or.inr ⟨(teIdxOf pts : ℤ) - 1, (teIdxOf pts : ℤ), Or.inl ⟨rfl, rfl⟩, h⟩
    · split at h
      · exact absurd h (by simp)
      · rename_i succP hsucc
        split at h
        · exact Or.inr ⟨(teIdxOf pts : ℤ), (teIdxOf pts : ℤ) + 1, Or.inr ⟨rfl, rfl⟩, h⟩
        · simp only [Except.ok.injEq] at h
          exact Or.inl h.symm

/-- C6 as amended: the trailing-point labeling of the repair is positional,
not a y-comparison — te_up_indx is always the earlier of the two consecutive
indices around the trailing index and te_down_indx = te_up_indx + 1 — and
the ray extrapolation uses the segment ending at the up-labeled point from
its predecessor and the segment ending at the down-labeled point from its
successor. -/
theorem c6_positional_labeling (pts : List Pt) (st : SplitSt)
    (h : splitterInit pts = .ok st) (hv : st.vertical = true) :
    ∃ u : ℤ, st.teUpIdx = some u ∧ st.teDownIdx = some (u + 1) ∧
      (u = (teIdxOf pts : ℤ) - 1 ∨ u = (teIdxOf pts : ℤ)) ∧
      ∃ up down p1 p2,
        pyGet pts u = .ok up ∧ pyGet pts (u + 1) = .ok down ∧
        pyGet pts (u - 1) = .ok p1 ∧ pyGet pts (u + 2) = .ok p2 ∧
        repairNew p1 up down p2 (pts[teIdxOf pts]?.getD ⟨0, 0, 0⟩).x =
          .ok st.inserted := by
  obtain ⟨-, -, hcases⟩ := splitterInit_ok_cases h
  rcases hcases with hst | ⟨teUp, teDown, hidx, hra⟩
  · rw [hst] at hv
    exact absurd hv (by simp)
  obtain ⟨up, down, p1, p2, hup, hdown, hp1, hp2, hres⟩ := repairAndInsert_ok_inv hra
  have hdown2 : teDown = teUp + 1 := by rcases hidx with ⟨h1, h2⟩ | ⟨h1, h2⟩ <;> omega
  refine ⟨teUp, ?_, ?_, ?_, up, down, p1, p2, hup, ?_, hp1, ?_, ?_⟩
  · rcases hres with ⟨-, hst⟩ | ⟨newP, -, hst⟩ <;> rw [hst]
  · rcases hres with ⟨-, hst⟩ | ⟨newP, -, hst⟩ <;> rw [hst] <;> rw [hdown2]
  · rcases hidx with ⟨h1, -⟩ | ⟨h1, -⟩
    · exact Or.inl h1
    · exact Or.inr h1
  · rw [← hdown2]
    exact hdown
  · rw [show teUp + 2 = teDown + 1 by omega]
    exact hp2
  · rcases hres with ⟨hrep, hst⟩ | ⟨newP, hrep, hst⟩ <;> rw [hst] <;> exact hrep

/-- C6 counterexample: a blunt contour on which the point labeled upper
trailing (te_up_indx = 2) has y = -1/100, strictly below the y = 1/100 of
the point labeled lower trailing (te_down_indx = 3) — the labels follow
list position, not the y comparison the claim states. -/
theorem c6_counterexample :
    splitterInit [⟨0, 0, 0⟩, ⟨1 / 2, -1 / 10, 0⟩, ⟨1, -1 / 100, 0⟩,
        ⟨1, 1 / 100, 0⟩, ⟨1 / 2, 1 / 10, 0⟩] =
      .ok ⟨[⟨0, 0, 0⟩, ⟨1 / 2, -1 / 10, 0⟩, ⟨1, -1 / 100, 0⟩, ⟨19 / 18, 0, 0⟩,
            ⟨1, 1 / 100, 0⟩, ⟨1 / 2, 1 / 10, 0⟩],
           0, 3, true, some 2, some 3, some ⟨19 / 18, 0, 0⟩⟩ ∧
    (⟨1, -1 / 100, 0⟩ : Pt).y < (⟨1, 1 / 100, 0⟩ : Pt).y ∧
    pyGet [⟨0, 0, 0⟩, ⟨1 / 2, -1 / 10, 0⟩, ⟨1, -1 / 100, 0⟩,
        ⟨1, 1 / 100, 0⟩, ⟨1 / 2, 1 / 10, 0⟩] 2 = .ok ⟨1, -1 / 100, 0⟩ ∧
    pyGet [⟨0, 0, 0⟩, ⟨1 / 2, -1 / 10, 0⟩, ⟨1, -1 / 100, 0⟩,
        ⟨1, 1 / 100, 0⟩, ⟨1 / 2, 1 / 10, 0⟩] 3 = .ok ⟨1, 1 / 100, 0⟩ := by
  refine ⟨?_, by norm_num, ?_, ?_⟩ <;>
    norm_num [splitterInit, repairAndInsert, repairNew, pyGet, insertAt, teIdxOf, leIdxOf,
      firstIdxWithX, fMin?, fMax?, List.findIdx_cons, intToNat_numerals,
      List.getElem?_cons_zero, List.getElem?_cons_succ, List.cons_ne_nil]

/-- Witness for c6_positional_labeling on the same blunt contour. -/
theorem c6_witness :
    splitterInit [⟨0, 0, 0⟩, ⟨1 / 2, -1 / 10, 0⟩, ⟨1, -1 / 100, 0⟩,
        ⟨1, 1 / 100, 0⟩, ⟨1 / 2, 1 / 10, 0⟩] =
      .ok ⟨[⟨0, 0, 0⟩, ⟨1 / 2, -1 / 10, 0⟩, ⟨1, -1 / 100, 0⟩, ⟨19 / 18, 0, 0⟩,
            ⟨1, 1 / 100, 0⟩, ⟨1 / 2, 1 / 10, 0⟩],
           0, 3, true, some 2, some 3, some ⟨19 / 18, 0, 0⟩⟩ ∧
    (⟨[⟨0, 0, 0⟩, ⟨1 / 2, -1 / 10, 0⟩, ⟨1, -1 / 100, 0⟩, ⟨19 / 18, 0, 0⟩,
       ⟨1, 1 / 100, 0⟩, ⟨1 / 2, 1 / 10, 0⟩],
      0, 3, true, some 2, some 3, some (⟨19 / 18, 0, 0⟩ : Pt)⟩ : SplitSt).vertical = true ∧
    ∃ u : ℤ,
      (⟨[⟨0, 0, 0⟩, ⟨1 / 2, -1 / 10, 0⟩, ⟨1, -1 / 100, 0⟩, ⟨19 / 18, 0, 0⟩,
         ⟨1, 1 / 100, 0⟩, ⟨1 / 2, 1 / 10, 0⟩],
        0, 3, true, some 2, some 3, some (⟨19 / 18, 0, 0⟩ : Pt)⟩ : SplitSt).teUpIdx = some u ∧
      (⟨[⟨0, 0, 0⟩, ⟨1 / 2, -1 / 10, 0⟩, ⟨1, -1 / 100, 0⟩, ⟨19 / 18, 0, 0⟩,
         ⟨1, 1 / 100, 0⟩, ⟨1 / 2, 1 / 10, 0⟩],
        0, 3, true, some 2, some 3, some (⟨19 / 18, 0, 0⟩ : Pt)⟩ : SplitSt).teDownIdx =
        some (u + 1) ∧
      (u = (teIdxOf [⟨0, 0, 0⟩, ⟨1 / 2, -1 / 10, 0⟩, ⟨1, -1 / 100, 0⟩,
              ⟨1, 1 / 100, 0⟩, ⟨1 / 2, 1 / 10, 0⟩] : ℤ) - 1 ∨
       u = (teIdxOf [⟨0, 0, 0⟩, ⟨1 / 2, -1 / 10, 0⟩, ⟨1, -1 / 100, 0⟩,
              ⟨1, 1 / 100, 0⟩, ⟨1 / 2, 1 / 10, 0⟩] : ℤ)) ∧
      ∃ up down p1 p2,
        pyGet [⟨0, 0, 0⟩, ⟨1 / 2, -1 / 10, 0⟩, ⟨1, -1 / 100, 0⟩,
            ⟨1, 1 / 100, 0⟩, ⟨1 / 2, 1 / 10, 0⟩] u = .ok up ∧
        pyGet [⟨0, 0, 0⟩, ⟨1 / 2, -1 / 10, 0⟩, ⟨1, -1 / 100, 0⟩,
            ⟨1, 1 / 100, 0⟩, ⟨1 / 2, 1 / 10, 0⟩] (u + 1) = .ok down ∧
        pyGet [⟨0, 0, 0⟩, ⟨1 / 2, -1 / 10, 0⟩, ⟨1, -1 / 100, 0⟩,
            ⟨1, 1 / 100, 0⟩, ⟨1 / 2, 1 / 10, 0⟩] (u - 1) = .ok p1 ∧
        pyGet [⟨0, 0, 0⟩, ⟨1 / 2, -1 / 10, 0⟩, ⟨1, -1 / 100, 0⟩,
            ⟨1, 1 / 100, 0⟩, ⟨1 / 2, 1 / 10, 0⟩] (u + 2) = .ok p2 ∧
        repairNew p1 up down p2
          ((([⟨0, 0, 0⟩, ⟨1 / 2, -1 / 10, 0⟩, ⟨1, -1 / 100, 0⟩, ⟨1, 1 / 100, 0⟩,
              ⟨1 / 2, 1 / 10, 0⟩] :
            List Pt)[teIdxOf [⟨0, 0, 0⟩, ⟨1 / 2, -1 / 10, 0⟩, ⟨1, -1 / 100, 0⟩,
              ⟨1, 1 / 100, 0⟩, ⟨1 / 2, 1 / 10, 0⟩]]?.getD ⟨0, 0, 0⟩).x) =
          .ok (⟨[⟨0, 0, 0⟩, ⟨1 / 2, -1 / 10, 0⟩, ⟨1, -1 / 100, 0⟩, ⟨19 / 18, 0, 0⟩,
                 ⟨1, 1 / 100, 0⟩, ⟨1 / 2, 1 / 10, 0⟩],
                0, 3, true, some 2, some 3,
                some (⟨19 / 18, 0, 0⟩ : Pt)⟩ : SplitSt).inserted := by
  have hrun : splitterInit [⟨0, 0, 0⟩, ⟨1 / 2, -1 / 10, 0⟩, ⟨1, -1 / 100, 0⟩,
      ⟨1, 1 / 100, 0⟩, ⟨1 / 2, 1 / 10, 0⟩] =
      .ok ⟨[⟨0, 0, 0⟩, ⟨1 / 2, -1 / 10, 0⟩, ⟨1, -1 / 100, 0⟩, ⟨19 / 18, 0, 0⟩,
            ⟨1, 1 / 100, 0⟩, ⟨1 / 2, 1 / 10, 0⟩],
           0, 3, true, some 2, some 3, some ⟨19 / 18, 0, 0⟩⟩ := by
    norm_num [splitterInit, repairAndInsert, repairNew, pyGet, insertAt, teIdxOf, leIdxOf,
      firstIdxWithX, fMin?, fMax?, List.findIdx_cons, intToNat_numerals,
      List.getElem?_cons_zero, List.getElem?_cons_succ, List.cons_ne_nil]
  exact ⟨hrun, rfl, c6_positional_labeling _ _ hrun rfl⟩

/-- C7 as amended: for exactly parallel extrapolation rays (determinant 0)
the code sets the sentinel mu = 10000000 and the midpoint-advance fallback
with result x exactly te.x + 0.05 is taken only when the sentinel advance
down.x + 10000000*(down.x - p2.x) lies outside both the acceptance window
(te.x, te.x + 0.1] and the no-repair window (te.x - 0.001, te.x], and the
averaged ray direction has a nonzero x component; inside the no-repair
window nothing is synthesized at all, and inside the acceptance window the
sentinel point itself is accepted. -/
theorem c7_parallel_fallback (p1 up down p2 : Pt) (tex : ℚ)
    (hdet : rayDet p1 up down p2 = 0)
    (hs1 : ¬(down.x + 10000000 * (down.x - p2.x) ≤ tex + 1 / 10 ∧
             down.x + 10000000 * (down.x - p2.x) > tex))
    (hs2 : ¬(down.x + 10000000 * (down.x - p2.x) > tex - 1 / 1000 ∧
             down.x + 10000000 * (down.x - p2.x) ≤ tex))
    (he : (up.x - p1.x + (down.x - p2.x)) / 2 ≠ 0) :
    ∃ ny, repairNew p1 up down p2 tex = .ok (some ⟨tex + 1 / 20, ny, 0⟩) := by
  have hdet2 : ¬((up.y - p1.y) * (down.x - p2.x) - (up.x - p1.x) * (down.y - p2.y) ≠ 0) :=
    not_not.mpr hdet
  unfold repairNew
  dsimp only
  rw [if_neg hdet2, if_neg hs1, if_neg hs2, if_neg he]
  exact ⟨_, rfl⟩

/-- C7 counterexample: a blunt contour whose two extrapolation rays are
exactly parallel (both vertical, determinant 0); the sentinel advance equals
te.x, so the run takes the no-repair branch: no point is synthesized at all,
and in particular no point with x = te.x + 0.05. -/
theorem c7_counterexample :
    rayDet ⟨19999 / 20000, 1 / 5, 0⟩ ⟨19999 / 20000, 1 / 10, 0⟩ ⟨1, 1 / 20, 0⟩
        ⟨1, -1 / 20, 0⟩ = 0 ∧
    splitterInit [⟨0, 0, 0⟩, ⟨19999 / 20000, 1 / 5, 0⟩, ⟨19999 / 20000, 1 / 10, 0⟩,
        ⟨1, 1 / 20, 0⟩, ⟨1, -1 / 20, 0⟩, ⟨1 / 2, -3 / 10, 0⟩] =
      .ok ⟨[⟨0, 0, 0⟩, ⟨19999 / 20000, 1 / 5, 0⟩, ⟨19999 / 20000, 1 / 10, 0⟩,
            ⟨1, 1 / 20, 0⟩, ⟨1, -1 / 20, 0⟩, ⟨1 / 2, -3 / 10, 0⟩],
           0, 3, true, some 2, some 3, none⟩ := by
  constructor
  · norm_num [rayDet]
  · norm_num [splitterInit, repairAndInsert, repairNew, pyGet, insertAt, teIdxOf, leIdxOf,
      firstIdxWithX, fMin?, fMax?, List.findIdx_cons, intToNat_numerals,
      List.getElem?_cons_zero, List.getElem?_cons_succ, List.cons_ne_nil]

/-- Witness for c7_parallel_fallback: parallel rays with direction vectors
(0.1, -0.1) and (-0.2, 0.2), sentinel advance far below tex, nonzero
averaged x direction. -/
theorem c7_witness :
    rayDet ⟨9 / 10, 1 / 10, 0⟩ ⟨1, 0, 0⟩ ⟨1, -1 / 100, 0⟩ ⟨6 / 5, -21 / 100, 0⟩ = 0 ∧
    ¬((1 : ℚ) + 10000000 * (1 - 6 / 5) ≤ 1 + 1 / 10 ∧
      (1 : ℚ) + 10000000 * (1 - 6 / 5) > 1) ∧
    ¬((1 : ℚ) + 10000000 * (1 - 6 / 5) > 1 - 1 / 1000 ∧
      (1 : ℚ) + 10000000 * (1 - 6 / 5) ≤ 1) ∧
    ((1 : ℚ) - 9 / 10 + (1 - 6 / 5)) / 2 ≠ 0 ∧
    ∃ ny, repairNew ⟨9 / 10, 1 / 10, 0⟩ ⟨1, 0, 0⟩ ⟨1, -1 / 100, 0⟩ ⟨6 / 5, -21 / 100, 0⟩ 1 =
      .ok (some ⟨(1 : ℚ) + 1 / 20, ny, 0⟩) :=
  ⟨by norm_num [rayDet], by norm_num, by norm_num, by norm_num,
   c7_parallel_fallback ⟨9 / 10, 1 / 10, 0⟩ ⟨1, 0, 0⟩ ⟨1, -1 / 100, 0⟩ ⟨6 / 5, -21 / 100, 0⟩ 1
     (by norm_num [rayDet]) (by norm_num) (by norm_num) (by norm_num)⟩

/-- Appending one point to the rotation scan keeps the last match. -/
theorem lastWithX_append (l : List Pt) (q : Pt) (le : ℚ) :
    lastWithX (l ++ [q]) le = if q.x = le then some q else lastWithX l le := by
  unfold lastWithX
  rw [List.foldl_append]
  rfl

/-- When some point attains x = le, the rotation scan remembers a point of
the list attaining it (the last one). -/
theorem lastWithX_spec (cps : List Pt) (le : ℚ) (hx : ∃ q ∈ cps, q.x = le) :
    ∃ p, lastWithX cps le = some p ∧ p ∈ cps ∧ p.x = le := by
  induction cps using List.reverseRecOn with
  | nil => simp at hx
  | append_singleton l q ih =>
    rw [lastWithX_append]
    by_cases hq : q.x = le
    · rw [if_pos hq]
      exact ⟨q, rfl, by simp, hq⟩
    · rw [if_neg hq]
      have hx2 : ∃ r ∈ l, r.x = le := by
        obtain ⟨r, hr, hrx⟩ := hx
        rcases List.mem_append.mp hr with hL | hR
        · exact ⟨r, hL, hrx⟩
        · simp at hR
          subst hR
          exact absurd hrx hq
      obtain ⟨p, hp1, hp2, hp3⟩ := ih hx2
      exact ⟨p, hp1, List.mem_append_left _ hp2, hp3⟩

/-- The index scan of the normalizer runs in lockstep with the point scan. -/
theorem foldl_debut_rel (cps : List Pt) (le : ℚ) (l : List Pt) (acc : Option Pt) :
    l.foldl (fun a p => if p.x = le then some (idxOfPt cps p) else a)
        (acc.map (idxOfPt cps)) =
      (l.foldl (fun a p => if p.x = le then some p else a) acc).map (idxOfPt cps) := by
  induction l generalizing acc with
  | nil => rfl
  | cons b t ih =>
    rw [List.foldl_cons, List.foldl_cons]
    by_cases hb : b.x = le
    · rw [if_pos hb, if_pos hb,
          show some (idxOfPt cps b) = (some b).map (idxOfPt cps) from rfl]
      exact ih (some b)
    · rw [if_neg hb, if_neg hb]
      exact ih acc

/-- debut is the index (of first structural occurrence) of the last point
attaining the minimal x. -/
theorem normDebut_eq (cps : List Pt) (le : ℚ) :
    normDebut cps le = (lastWithX cps le).map (idxOfPt cps) := by
  unfold normDebut lastWithX
  have h := foldl_debut_rel cps le cps none
  simpa using h

/-- The first structural occurrence of a list member is in range. -/
theorem idxOfPt_lt_length {cps : List Pt} {p : Pt} (hp : p ∈ cps) :
    idxOfPt cps p < cps.length := by
  unfold idxOfPt
  apply List.findIdx_lt_length_of_exists
  exact ⟨p, hp, by simp⟩

/-- The point at the first structural occurrence is the point itself. -/
theorem idxOfPt_get {cps : List Pt} {p : Pt} (hp : p ∈ cps) :
    cps.get ⟨idxOfPt cps p, idxOfPt_lt_length hp⟩ = p := by
  have hw : List.findIdx (fun q => decide (q = p)) cps < cps.length := idxOfPt_lt_length hp
  have h := List.findIdx_getElem (w := hw)
  simpa [idxOfPt] using h

/-- C8 as amended: for every nonempty point cloud the normalizer rotates the
list so that index 0 holds a point of minimal x, but ties are resolved by
the LAST point (in input order) attaining the minimal x — the scan loop
overwrites debut on every tie — located at its first structurally-equal
index, not by the first occurrence the claim states. -/
theorem c8_rotation_last_tie (cps : List Pt) (hne : cps ≠ []) :
    ∃ le p d, fMin? (cps.map Pt.x) = some le ∧ lastWithX cps le = some p ∧ p.x = le ∧
      d = idxOfPt cps p ∧ d < cps.length ∧
      normalizeRotate cps = .ok (cps.drop d ++ cps.take d) ∧
      (cps.drop d ++ cps.take d).head? = some p := by
  obtain ⟨le, hle⟩ := fMin?_isSome (cps.map Pt.x) (by simpa using hne)
  obtain ⟨q0, hq0, hq0x⟩ := List.mem_map.mp (fMin?_mem hle)
  obtain ⟨p, hp1, hp2, hp3⟩ := lastWithX_spec cps le ⟨q0, hq0, hq0x⟩
  have hd : idxOfPt cps p < cps.length := idxOfPt_lt_length hp2
  refine ⟨le, p, idxOfPt cps p, hle, hp1, hp3, rfl, hd, ?_, ?_⟩
  · unfold normalizeRotate
    simp only [hle, normDebut_eq, hp1, Option.map_some']
  · rw [List.drop_eq_getElem_cons hd, List.cons_append]
    simp only [List.head?_cons, Option.some.injEq]
    have h := idxOfPt_get hp2
    simpa using h

/-- C8 counterexample: with two points tying for the minimal x = 0 at
indices 0 and 2, the normalizer rotates the LAST tie (0, -1) to the front;
the first occurrence (0, 1) stays behind — ties are not resolved by first
occurrence. -/
theorem c8_counterexample :
    normalizeRotate [⟨0, 1, 0⟩, ⟨1, 0, 0⟩, ⟨0, -1, 0⟩] =
      .ok [⟨0, -1, 0⟩, ⟨0, 1, 0⟩, ⟨1, 0, 0⟩] ∧
    firstIdxWithX [⟨0, 1, 0⟩, ⟨1, 0, 0⟩, ⟨0, -1, 0⟩] 0 = 0 ∧
    ([⟨0, -1, 0⟩, ⟨0, 1, 0⟩, ⟨1, 0, 0⟩] : List Pt).head? ≠ some (⟨0, 1, 0⟩ : Pt) := by
  refine ⟨?_, ?_, by norm_num [Pt.mk.injEq]⟩
  · norm_num [normalizeRotate, normDebut, lastWithX, idxOfPt, fMin?, List.findIdx_cons]
  · norm_num [firstIdxWithX, List.findIdx_cons]

/-- Witness for c8_rotation_last_tie on the same tied cloud. -/
theorem c8_witness :
    ([⟨0, 1, 0⟩, ⟨1, 0, 0⟩, ⟨0, -1, 0⟩] : List Pt) ≠ [] ∧
    ∃ le p d,
      fMin? (([⟨0, 1, 0⟩, ⟨1, 0, 0⟩, ⟨0, -1, 0⟩] : List Pt).map Pt.x) = some le ∧
      lastWithX [⟨0, 1, 0⟩, ⟨1, 0, 0⟩, ⟨0, -1, 0⟩] le = some p ∧ p.x = le ∧
      d = idxOfPt [⟨0, 1, 0⟩, ⟨1, 0, 0⟩, ⟨0, -1, 0⟩] p ∧
      d < ([⟨0, 1, 0⟩, ⟨1, 0, 0⟩, ⟨0, -1, 0⟩] : List Pt).length ∧
      normalizeRotate [⟨0, 1, 0⟩, ⟨1, 0, 0⟩, ⟨0, -1, 0⟩] =
        .ok (([⟨0, 1, 0⟩, ⟨1, 0, 0⟩, ⟨0, -1, 0⟩] : List Pt).drop d ++
             ([⟨0, 1, 0⟩, ⟨1, 0, 0⟩, ⟨0, -1, 0⟩] : List Pt).take d) ∧
      (([⟨0, 1, 0⟩, ⟨1, 0, 0⟩, ⟨0, -1, 0⟩] : List Pt).drop d ++
       ([⟨0, 1, 0⟩, ⟨1, 0, 0⟩, ⟨0, -1, 0⟩] : List Pt).take d).head? = some p :=
  ⟨by simp, c8_rotation_last_tie [⟨0, 1, 0⟩, ⟨1, 0, 0⟩, ⟨0, -1, 0⟩] (by simp)⟩

/-- A zero leading-edge index means the head attains the minimal x. -/
theorem leIdxOf_zero_head {p0 : Pt} {rest : List Pt} {m : ℚ}
    (h : leIdxOf (p0 :: rest) = 0) (hm : fMin? ((p0 :: rest).map Pt.x) = some m) :
    p0.x = m := by
  unfold leIdxOf firstIdxWithX at h
  rw [List.findIdx_cons] at h
  by_cases hc : p0.x = (fMin? ((p0 :: rest).map Pt.x)).getD 0
  · rw [hm] at hc
    simpa using hc
  · simp only [hc, decide_eq_false hc, cond_false] at h
    exact absurd h (Nat.succ_ne_zero _)

/-- A zero trailing-edge index means the head attains the maximal x. -/
theorem teIdxOf_zero_head {p0 : Pt} {rest : List Pt} {m : ℚ}
    (h : teIdxOf (p0 :: rest) = 0) (hm : fMax? ((p0 :: rest).map Pt.x) = some m) :
    p0.x = m := by
  unfold teIdxOf firstIdxWithX at h
  rw [List.findIdx_cons] at h
  by_cases hc : p0.x = (fMax? ((p0 :: rest).map Pt.x)).getD 0
  · rw [hm] at hc
    simpa using hc
  · simp only [hc, decide_eq_false hc, cond_false] at h
    exact absurd h (Nat.succ_ne_zero _)

/-- A head attaining the minimal x gives leading-edge index 0. -/
theorem leIdxOf_cons_zero {p0 : Pt} {rest : List Pt} {m : ℚ}
    (hm : fMin? ((p0 :: rest).map Pt.x) = some m) (h : p0.x = m) :
    leIdxOf (p0 :: rest) = 0 := by
  unfold leIdxOf firstIdxWithX
  rw [List.findIdx_cons, hm]
  simp [h]

/-- When the leading and trailing indices are both 0 every point has the
trailing x (a degenerate all-equal-x contour). -/
theorem all_x_eq {pts : List Pt} (hne : pts ≠ []) (hle : leIdxOf pts = 0)
    (hte : teIdxOf pts = 0) :
    ∀ p ∈ pts, p.x = (pts[teIdxOf pts]?.getD ⟨0, 0, 0⟩).x := by
  obtain ⟨p0, rest, rfl⟩ : ∃ p0 rest, pts = p0 :: rest := by
    cases hcl : pts with
    | nil => exact absurd hcl hne
    | cons a b => exact ⟨a, b, rfl⟩
  rw [hte]
  simp only [List.getElem?_cons_zero, Option.getD_some]
  obtain ⟨mn, hmn⟩ := fMin?_isSome ((p0 :: rest).map Pt.x) (by simp)
  obtain ⟨mx, hmx⟩ := fMax?_isSome ((p0 :: rest).map Pt.x) (by simp)
  have h1 : p0.x = mn := leIdxOf_zero_head hle hmn
  have h2 : p0.x = mx := teIdxOf_zero_head hte hmx
  intro p hp
  have hlo := fMin?_le hmn p.x (List.mem_map_of_mem Pt.x hp)
  have hhi := le_fMax? hmx p.x (List.mem_map_of_mem Pt.x hp)
  linarith

/-- When all four repair points share the trailing x (all-equal-x contour),
the repair determinant is zero, the sentinel advance equals te.x, and the
no-repair branch is taken: nothing is synthesized. -/
theorem repairNew_all_equal (p1 up down p2 : Pt) (tex : ℚ)
    (h1 : up.x = tex) (h2 : down.x = tex) (h3 : p1.x = tex) (h4 : p2.x = tex) :
    repairNew p1 up down p2 tex = .ok none := by
  unfold repairNew
  dsimp only
  rw [h1, h2, h3, h4]
  rw [if_neg (not_not.mpr (by ring))]
  rw [if_neg (by rintro ⟨-, hgt⟩; linarith)]
  rw [if_pos (by constructor <;> linarith)]

/-- Minimum after a cons whose head is no smaller stays the old minimum. -/
theorem fMin?_cons_ge {q : ℚ} {xs : List ℚ} {m : ℚ} (hm : fMin? xs = some m)
    (h : m ≤ q) : fMin? (q :: xs) = some m := by
  rw [fMin?, hm]
  simp [min_eq_right h]

/-- Minimum of the point xs after inserting a point. -/
theorem fMinX_insertAt (j : ℕ) (v : Pt) (pts : List Pt) :
    fMin? ((insertAt j v pts).map Pt.x) = fMin? (v.x :: pts.map Pt.x) := by
  unfold insertAt
  rw [List.map_append, List.map_cons, fMin?_middle, ← List.map_append,
      List.take_append_drop]

/-- Maximum of the point xs after inserting a point. -/
theorem fMaxX_insertAt (j : ℕ) (v : Pt) (pts : List Pt) :
    fMax? ((insertAt j v pts).map Pt.x) = fMax? (v.x :: pts.map Pt.x) := by
  unfold insertAt
  rw [List.map_append, List.map_cons, fMax?_middle, ← List.map_append,
      List.take_append_drop]

/-- Inserting a strictly dominating point makes it the (first) trailing
index. -/
theorem teIdxOf_insertAt {j : ℕ} {v : Pt} {pts : List Pt} (hj : j ≤ pts.length)
    (hlt : ∀ p ∈ pts, p.x < v.x) :
    teIdxOf (insertAt j v pts) = j := by
  have hmax : fMax? ((insertAt j v pts).map Pt.x) = some v.x := by
    rw [fMaxX_insertAt, fMax?_eq_some_iff]
    constructor
    · exact List.mem_cons_self v.x (pts.map Pt.x)
    · intro q hq
      rcases List.mem_cons.mp hq with hh | hh
      · exact le_of_eq hh
      · obtain ⟨p, hp, hpx⟩ := List.mem_map.mp hh
        rw [← hpx]
        exact le_of_lt (hlt p hp)
  unfold teIdxOf firstIdxWithX
  rw [hmax]
  simp only [Option.getD_some]
  show List.findIdx (fun p => decide (p.x = v.x)) (pts.take j ++ v :: pts.drop j) = j
  rw [findIdx_append_of_not _ _ _ fun a ha => by
    simp only [decide_eq_false_iff_not]
    exact ne_of_lt (hlt a (List.mem_of_mem_take ha))]
  rw [List.findIdx_cons]
  simp [List.length_take, Nat.min_eq_left hj]

/-- Inserting a new point at position 1 or later keeps the head of a cons. -/
theorem insertAt_cons_succ (j : ℕ) (v p0 : Pt) (rest : List Pt) :
    insertAt (j + 1) v (p0 :: rest) = p0 :: insertAt j v rest := by
  simp [insertAt]

/-- Inserting a weakly dominated-by point behind the leading edge keeps the
leading-edge index at 0. -/
theorem leIdxOf_insertAt {j : ℕ} {v : Pt} {pts : List Pt} (hj1 : 1 ≤ j)
    (hle : leIdxOf pts = 0) (hne : pts ≠ [])
    (hge : ∀ p ∈ pts, p.x ≤ v.x) :
    leIdxOf (insertAt j v pts) = 0 := by
  obtain ⟨p0, rest, rfl⟩ : ∃ p0 rest, pts = p0 :: rest := by
    cases hcl : pts with
    | nil => exact absurd hcl hne
    | cons a b => exact ⟨a, b, rfl⟩
  obtain ⟨jj, rfl⟩ : ∃ jj, j = jj + 1 := ⟨j - 1, by omega⟩
  rw [insertAt_cons_succ]
  obtain ⟨m, hm⟩ := fMin?_isSome ((p0 :: rest).map Pt.x) (by simp)
  have hp0 : p0.x = m := leIdxOf_zero_head hle hm
  have hmin2 : fMin? ((p0 :: insertAt jj v rest).map Pt.x) = some m := by
    rw [← insertAt_cons_succ, fMinX_insertAt]
    refine fMin?_cons_ge hm ?_
    rw [← hp0]
    exact hge p0 (List.mem_cons_self p0 rest)
  exact leIdxOf_cons_zero hmin2 hp0

/-- C5 as amended: re-running the splitter on a repaired contour performs no
further repair PROVIDED the synthesized trailing point advanced x beyond
every original point by at least the 1e-4 bluntness tolerance (as the
midpoint-advance fallback, which advances by 0.05, always does): the second
run leaves the points unchanged, detects no bluntness (vertical = false) and
inserts nothing.  Below the tolerance the bluntness test triggers again, so
the claim's "detection no longer triggers" fails in general. -/
theorem c5_no_repair_beyond_tolerance (pts : List Pt) (st : SplitSt) (v : Pt)
    (h1 : splitterInit pts = .ok st) (h2 : st.inserted = some v)
    (h3 : ∀ p ∈ pts, p.x + 1 / 10000 ≤ v.x) :
    splitterInit st.points = .ok ⟨st.points, 0, st.teIdx, false, none, none, none⟩ := by
  obtain ⟨hne, hle0, hcases⟩ := splitterInit_ok_cases h1
  rcases hcases with hst | ⟨teUp, teDown, hidx, hra⟩
  · rw [hst] at h2
    exact absurd h2 (by simp)
  obtain ⟨up, down, p1, p2, hup, hdown, hp1g, hp2g, hres⟩ := repairAndInsert_ok_inv hra
  rcases hres with ⟨-, hst⟩ | ⟨newP, hrep, hst⟩
  · rw [hst] at h2
    exact absurd h2 (by simp)
  have hnewv : newP = v := by
    rw [hst] at h2
    simpa using h2
  rw [hnewv] at hrep hst
  have hteL : teIdxOf pts < pts.length := teIdxOf_lt_length hne
  have hd0 : 0 ≤ teDown := by
    rcases hidx with ⟨-, hd⟩ | ⟨-, hd⟩ <;> omega
  have hdlt : teDown.toNat < pts.length := (pyGet_ok_of_nonneg hd0 hdown).1
  have hj1 : 1 ≤ teDown.toNat := by
    rcases hidx with ⟨hu, hd⟩ | ⟨hu, hd⟩
    · by_contra hj0
      push_neg at hj0
      have hte0 : teIdxOf pts = 0 := by omega
      have hallx := all_x_eq hne hle0 hte0
      have hnull := repairNew_all_equal p1 up down p2
        ((pts[teIdxOf pts]?.getD ⟨0, 0, 0⟩).x)
        (hallx up (pyGet_ok_mem hup)) (hallx down (pyGet_ok_mem hdown))
        (hallx p1 (pyGet_ok_mem hp1g)) (hallx p2 (pyGet_ok_mem hp2g))
      rw [hnull] at hrep
      exact absurd hrep (by simp)
    · omega
  have hxlt : ∀ p ∈ pts, p.x < v.x := fun p hp => by
    have := h3 p hp
    linarith
  have hq1 : pts[teDown.toNat - 1]? = some (pts.get ⟨teDown.toNat - 1, by omega⟩) :=
    List.getElem?_eq_getElem (by omega)
  have hq1mem : pts.get ⟨teDown.toNat - 1, by omega⟩ ∈ pts := List.getElem?_mem hq1
  have hq2 : pts[teDown.toNat]? = some (pts.get ⟨teDown.toNat, hdlt⟩) :=
    List.getElem?_eq_getElem hdlt
  have hq2mem : pts.get ⟨teDown.toNat, hdlt⟩ ∈ pts := List.getElem?_mem hq2
  have hne2 : insertAt teDown.toNat v pts ≠ [] := by simp [insertAt]
  have hle2 : leIdxOf (insertAt teDown.toNat v pts) = 0 :=
    leIdxOf_insertAt hj1 hle0 hne fun p hp => le_of_lt (hxlt p hp)
  have hte2 : teIdxOf (insertAt teDown.toNat v pts) = teDown.toNat :=
    teIdxOf_insertAt (le_of_lt hdlt) hxlt
  have hgetj : (insertAt teDown.toNat v pts)[teDown.toNat]? = some v :=
    insertAt_getElem?_self (le_of_lt hdlt)
  have hpredG : pyGet (insertAt teDown.toNat v pts) ((teDown.toNat : ℤ) - 1) =
      .ok (pts.get ⟨teDown.toNat - 1, by omega⟩) := by
    unfold pyGet
    have hc : ¬((teDown.toNat : ℤ) - 1 < 0) := by omega
    rw [if_neg hc, if_neg hc]
    have hidx2 : ((teDown.toNat : ℤ) - 1).toNat = teDown.toNat - 1 := by omega
    rw [hidx2, insertAt_getElem?_lt (le_of_lt hdlt) (by omega), hq1]
  have hsuccG : pyGet (insertAt teDown.toNat v pts) ((teDown.toNat : ℤ) + 1) =
      .ok (pts.get ⟨teDown.toNat, hdlt⟩) := by
    unfold pyGet
    have hc : ¬((teDown.toNat : ℤ) + 1 < 0) := by omega
    rw [if_neg hc, if_neg hc]
    have hidx2 : ((teDown.toNat : ℤ) + 1).toNat = teDown.toNat + 1 := by omega
    rw [hidx2, insertAt_getElem?_succ (le_of_lt hdlt) (le_refl teDown.toNat), hq2]
  have hc1 : ¬((pts.get ⟨teDown.toNat - 1, by omega⟩).x > v.x - 1 / 10000) := by
    push_neg
    have := h3 _ hq1mem
    linarith
  have hc2 : ¬((pts.get ⟨teDown.toNat, hdlt⟩).x > v.x - 1 / 10000) := by
    push_neg
    have := h3 _ hq2mem
    linarith
  have hstp : st.points = insertAt teDown.toNat v pts := by rw [hst]
  have hstt : st.teIdx = teDown.toNat := by rw [hst]
  rw [hstp, hstt]
  rw [splitterInit, if_neg hne2]
  simp only [hle2, hte2, hgetj, Option.getD_some, ne_eq, not_true_eq_false,
    not_false_eq_true, if_false, ite_false, reduceIte]
  simp only [hpredG]
  rw [if_neg hc1]
  simp only [hsuccG]
  rw [if_neg hc2]

/-- C5 counterexample: the first run repairs a blunt trailing edge with an
intersection only 1e-5 beyond the old trailing x; running the splitter again
on the repaired contour makes the bluntness detection trigger again
(vertical = true, te_up/te_down set around the synthesized point), contrary
to the claim that the test no longer triggers.  (In exact arithmetic the
recomputed intersection lands in the no-repair window, so no further point
is inserted.) -/
theorem c5_counterexample :
    splitterInit [⟨0, 0, 0⟩, ⟨1 / 2, 1 / 10, 0⟩, ⟨9 / 10, 10001 / 100000, 0⟩,
        ⟨1, 1 / 100000, 0⟩, ⟨1, -1 / 100000, 0⟩, ⟨9 / 10, -10001 / 100000, 0⟩,
        ⟨1 / 2, -1 / 10, 0⟩] =
      .ok ⟨[⟨0, 0, 0⟩, ⟨1 / 2, 1 / 10, 0⟩, ⟨9 / 10, 10001 / 100000, 0⟩,
            ⟨1, 1 / 100000, 0⟩, ⟨100001 / 100000, 0, 0⟩, ⟨1, -1 / 100000, 0⟩,
            ⟨9 / 10, -10001 / 100000, 0⟩, ⟨1 / 2, -1 / 10, 0⟩],
           0, 4, true, some 3, some 4, some ⟨100001 / 100000, 0, 0⟩⟩ ∧
    splitterInit [⟨0, 0, 0⟩, ⟨1 / 2, 1 / 10, 0⟩, ⟨9 / 10, 10001 / 100000, 0⟩,
        ⟨1, 1 / 100000, 0⟩, ⟨100001 / 100000, 0, 0⟩, ⟨1, -1 / 100000, 0⟩,
        ⟨9 / 10, -10001 / 100000, 0⟩, ⟨1 / 2, -1 / 10, 0⟩] =
      .ok ⟨[⟨0, 0, 0⟩, ⟨1 / 2, 1 / 10, 0⟩, ⟨9 / 10, 10001 / 100000, 0⟩,
            ⟨1, 1 / 100000, 0⟩, ⟨100001 / 100000, 0, 0⟩, ⟨1, -1 / 100000, 0⟩,
            ⟨9 / 10, -10001 / 100000, 0⟩, ⟨1 / 2, -1 / 10, 0⟩],
           0, 4, true, some 3, some 4, none⟩ := by
  constructor <;>
    norm_num [splitterInit, repairAndInsert, repairNew, pyGet, insertAt, teIdxOf, leIdxOf,
      firstIdxWithX, fMin?, fMax?, List.findIdx_cons, intToNat_numerals,
      List.getElem?_cons_zero, List.getElem?_cons_succ, List.cons_ne_nil]

/-- Witness for c5_no_repair_beyond_tolerance: a repair advancing the
trailing edge by 0.02 (beyond the 1e-4 tolerance); the second run is the
identity with vertical = false. -/
theorem c5_witness :
    splitterInit [⟨0, 0, 0⟩, ⟨1 / 2, 1 / 5, 0⟩, ⟨9 / 10, 3 / 25, 0⟩, ⟨1, 1 / 50, 0⟩,
        ⟨1, -1 / 50, 0⟩, ⟨9 / 10, -3 / 25, 0⟩, ⟨1 / 2, -1 / 5, 0⟩] =
      .ok ⟨[⟨0, 0, 0⟩, ⟨1 / 2, 1 / 5, 0⟩, ⟨9 / 10, 3 / 25, 0⟩, ⟨1, 1 / 50, 0⟩,
            ⟨51 / 50, 0, 0⟩, ⟨1, -1 / 50, 0⟩, ⟨9 / 10, -3 / 25, 0⟩, ⟨1 / 2, -1 / 5, 0⟩],
           0, 4, true, some 3, some 4, some ⟨51 / 50, 0, 0⟩⟩ ∧
    (∀ p ∈ [(⟨0, 0, 0⟩ : Pt), ⟨1 / 2, 1 / 5, 0⟩, ⟨9 / 10, 3 / 25, 0⟩, ⟨1, 1 / 50, 0⟩,
        ⟨1, -1 / 50, 0⟩, ⟨9 / 10, -3 / 25, 0⟩, ⟨1 / 2, -1 / 5, 0⟩],
      p.x + 1 / 10000 ≤ (⟨51 / 50, 0, 0⟩ : Pt).x) ∧
    splitterInit [⟨0, 0, 0⟩, ⟨1 / 2, 1 / 5, 0⟩, ⟨9 / 10, 3 / 25, 0⟩, ⟨1, 1 / 50, 0⟩,
        ⟨51 / 50, 0, 0⟩, ⟨1, -1 / 50, 0⟩, ⟨9 / 10, -3 / 25, 0⟩, ⟨1 / 2, -1 / 5, 0⟩] =
      .ok ⟨[⟨0, 0, 0⟩, ⟨1 / 2, 1 / 5, 0⟩, ⟨9 / 10, 3 / 25, 0⟩, ⟨1, 1 / 50, 0⟩,
            ⟨51 / 50, 0, 0⟩, ⟨1, -1 / 50, 0⟩, ⟨9 / 10, -3 / 25, 0⟩, ⟨1 / 2, -1 / 5, 0⟩],
           0, 4, false, none, none, none⟩ := by
  have hrun : splitterInit [⟨0, 0, 0⟩, ⟨1 / 2, 1 / 5, 0⟩, ⟨9 / 10, 3 / 25, 0⟩,
      ⟨1, 1 / 50, 0⟩, ⟨1, -1 / 50, 0⟩, ⟨9 / 10, -3 / 25, 0⟩, ⟨1 / 2, -1 / 5, 0⟩] =
      .ok ⟨[⟨0, 0, 0⟩, ⟨1 / 2, 1 / 5, 0⟩, ⟨9 / 10, 3 / 25, 0⟩, ⟨1, 1 / 50, 0⟩,
            ⟨51 / 50, 0, 0⟩, ⟨1, -1 / 50, 0⟩, ⟨9 / 10, -3 / 25, 0⟩, ⟨1 / 2, -1 / 5, 0⟩],
           0, 4, true, some 3, some 4, some ⟨51 / 50, 0, 0⟩⟩ := by
    norm_num [splitterInit, repairAndInsert, repairNew, pyGet, insertAt, teIdxOf, leIdxOf,
      firstIdxWithX, fMin?, fMax?, List.findIdx_cons, intToNat_numerals,
      List.getElem?_cons_zero, List.getElem?_cons_succ, List.cons_ne_nil]
  have hbound : ∀ p ∈ [(⟨0, 0, 0⟩ : Pt), ⟨1 / 2, 1 / 5, 0⟩, ⟨9 / 10, 3 / 25, 0⟩,
      ⟨1, 1 / 50, 0⟩, ⟨1, -1 / 50, 0⟩, ⟨9 / 10, -3 / 25, 0⟩, ⟨1 / 2, -1 / 5, 0⟩],
      p.x + 1 / 10000 ≤ (⟨51 / 50, 0, 0⟩ : Pt).x := by
    intro p hp
    fin_cases hp <;> norm_num
  exact ⟨hrun, hbound,
    c5_no_repair_beyond_tolerance _ _ ⟨51 / 50, 0, 0⟩ hrun rfl hbound⟩

end GmshAirfoil2D
